import Mathlib

/-!
Verification of the `Interpreter` class of `src/interpret.py` (repository
Jerzzy16/Interpreter) against its natural-language specification.

Shallow embedding notes.
* Source lines, identifiers and messages are modelled as `List Char`.
* Python's arbitrary-precision `int` is modelled as `ℤ`; Python `float` is
  modelled as an exact rational (`ℚ`).  All numeric literals and the `+`/`-`
  arithmetic appearing in the claims are exactly representable in binary
  floating point, so rounding of doubles never shows up in any claim; float
  overflow is likewise not modelled.
* Python's `eval` on the sanitised expression text (which, after the two
  character checks of `eval_expr`, contains only digits, `.`, `+`, `-`,
  parentheses and whitespace) is modelled by an explicit tokenizer, parser
  and evaluator (`pyEval`) faithful to Python's grammar on that character
  set: juxtaposition is a call (a `TypeError` at run time), `()` is the
  empty tuple, adjacent number tokens and lone dots are syntax errors, and
  integer literals with leading zeros are rejected.
* Diagnostic strings such as `"Variable 'x' redeclared."` are modelled by
  the inductive `Msg`, one constructor per `self.error(...)` call site,
  carrying the interpolated data.
* `str.splitlines` is modelled for `\n`-separated text; `enumerate(...,
  start=1)` gives 1-based line numbers.
* The uncaught `TypeError` that `parse_and_run` can raise at
  `val = float(val)` (line 83 / line 146 of the source, reached when the
  evaluated expression is an empty tuple and the target is a double) is
  modelled by `processLine` returning `none`; a run that raises is
  `runLinesAux ... = none`.
-/

attribute [local semireducible] Rat.add Rat.sub Rat.mul

instance exceptDecEq {e a : Type} [DecidableEq e] [DecidableEq a] : DecidableEq (Except e a) :=
  fun x y =>
  match x, y with
  | Except.error v, Except.error w =>
    if h : v = w then isTrue (by rw [h]) else isFalse (by simp [h])
  | Except.error _, Except.ok _ => isFalse (by simp)
  | Except.ok _, Except.error _ => isFalse (by simp)
  | Except.ok v, Except.ok w =>
    if h : v = w then isTrue (by rw [h]) else isFalse (by simp [h])

/-- Python `\s` on ASCII text: space, tab, newline, carriage return,
vertical tab, form feed. -/
def pySpace (c : Char) : Bool :=
  c = ' ' || c = '\t' || c = '\n' || c = '\r' || c = Char.ofNat 11 || c = Char.ofNat 12

/-- Python `str.lstrip()`. -/
def pyLStrip (s : List Char) : List Char := s.dropWhile pySpace

/-- Python `str.rstrip()`. -/
def pyRStrip (s : List Char) : List Char := (s.reverse.dropWhile pySpace).reverse

/-- Python `str.strip()`. -/
def pyStrip (s : List Char) : List Char := pyRStrip (pyLStrip s)

/-- A regex `\w` word character (`re` on ASCII source text). -/
def isWordChar (c : Char) : Bool := c.isAlpha || c.isDigit || c = '_'

/-- Characters rejected by the first check of `eval_expr`
(`[^A-Za-z0-9\.\+\-\(\)\s]`, interpret.py line 185). -/
def badChar (c : Char) : Bool :=
  !(c.isAlpha || c.isDigit || c = '.' || c = '+' || c = '-' || c = '(' || c = ')' || pySpace c)

/-- Characters rejected by the post-substitution check of `eval_expr`
(`[^0-9\.\+\-\(\)\s]`, interpret.py line 203). -/
def badChar2 (c : Char) : Bool :=
  !(c.isDigit || c = '.' || c = '+' || c = '-' || c = '(' || c = ')' || pySpace c)

/-- Matches the leading `([A-Za-z]\w*)` of the statement regexes: an
identifier (maximal word-character run starting with a letter) and the rest
of the text. -/
def parseIdent (s : List Char) : Option (List Char × List Char) :=
  match s with
  | [] => none
  | c :: cs =>
    if c.isAlpha then some (c :: cs.takeWhile isWordChar, cs.dropWhile isWordChar)
    else none

/-- Strip a literal pattern case-insensitively (the regexes are compiled
with `re.IGNORECASE`), returning the rest of the text. -/
def dropCI (pat : List Char) (s : List Char) : Option (List Char) :=
  match pat, s with
  | [], rest => some rest
  | _ :: _, [] => none
  | p :: ps, c :: cs => if c.toLower = p.toLower then dropCI ps cs else none

/-- The common `\s*(.+?)\s*;\s*$` tail of `RE_ASSIGN` and `RE_OUTPUT`: the
text matches iff, after right-stripping, it ends in `;` preceded by at least
one character; the lazily captured group, post-`strip()`, is everything
before that final `;`, stripped. -/
def semiTail (r0 : List Char) : Option (List Char) :=
  let r := pyRStrip r0
  match r.getLast? with
  | some ';' => if 2 ≤ r.length then some (pyStrip r.dropLast) else none
  | _ => none

/-- The two declarable types (`RE_DECL` group 2, lowered at line 56). -/
inductive Ty where
  | integer
  | double
deriving DecidableEq, Repr

/-- Tail of `RE_DECL` after the declared type keyword: `\s*;\s*$`. -/
def declTail (name : List Char) (ty : Ty) (r5 : List Char) : Option (List Char × Ty) :=
  match pyLStrip r5 with
  | ';' :: r6 => if pyLStrip r6 = [] then some (name, ty) else none
  | _ => none

/-- `RE_DECL.match` (interpret.py line 10):
`^\s*([A-Za-z]\w*)\s*:\s*(integer|double)\s*;\s*$`, `re.IGNORECASE`. -/
def declMatch (l : List Char) : Option (List Char × Ty) :=
  match parseIdent (pyLStrip l) with
  | none => none
  | some (name, r1) =>
    match pyLStrip r1 with
    | ':' :: r3 =>
      let r4 := pyLStrip r3
      match dropCI "integer".data r4 with
      | some r5 => declTail name Ty.integer r5
      | none =>
        match dropCI "double".data r4 with
        | some r5 => declTail name Ty.double r5
        | none => none
    | _ => none

/-- `RE_ASSIGN.match` (interpret.py line 11):
`^\s*([A-Za-z]\w*)\s*(?::=|=)\s*(.+?)\s*;\s*$`.  Returns the identifier and
the expression text as produced by `m.group(2).strip()`. -/
def assignMatch (l : List Char) : Option (List Char × List Char) :=
  match parseIdent (pyLStrip l) with
  | none => none
  | some (name, r1) =>
    match pyLStrip r1 with
    | ':' :: '=' :: r3 => (semiTail r3).map (fun e => (name, e))
    | '=' :: r3 => (semiTail r3).map (fun e => (name, e))
    | _ => none

/-- `RE_OUTPUT.match` (interpret.py line 12):
`^\s*output\s*<<\s*(.+?)\s*;\s*$`, `re.IGNORECASE`.  Returns the payload as
produced by `m.group(1).strip()`. -/
def outputMatch (l : List Char) : Option (List Char) :=
  match dropCI "output".data (pyLStrip l) with
  | none => none
  | some r1 =>
    match pyLStrip r1 with
    | '<' :: '<' :: r3 => semiTail r3
    | _ => none

/-- `RE_IF.match` (interpret.py line 13):
`^\s*if\s*\(\s*(.+?)\s*\)\s*(.+)$`, `re.IGNORECASE`.  The lazy group 1 ends
at the first `)`; both groups are returned stripped, as the handler strips
them. -/
def ifMatch (l : List Char) : Option (List Char × List Char) :=
  match dropCI "if".data (pyLStrip l) with
  | none => none
  | some r1 =>
    match pyLStrip r1 with
    | '(' :: r3 =>
      let a := r3.takeWhile (fun c => c ≠ ')')
      match r3.dropWhile (fun c => c ≠ ')') with
      | ')' :: b => if a ≠ [] ∧ b ≠ [] then some (pyStrip a, pyStrip b) else none
      | _ => none
    | _ => none

/-- One comparison operator of `RE_COND`'s alternation `(==|!=|>|<)` at the
head of the text, together with the remaining text; the engine requires at
least one character after the operator (for the lazy group 3).  At a fixed
position the alternation prefers `==`, then `!=`, then `>`, then `<`. -/
def condOpAt (s : List Char) : Option (List Char × List Char) :=
  match s with
  | '=' :: '=' :: rest => if rest ≠ [] then some ("==".data, rest) else none
  | '!' :: '=' :: rest => if rest ≠ [] then some ("!=".data, rest) else none
  | '>' :: rest => if rest ≠ [] then some (">".data, rest) else none
  | '<' :: rest => if rest ≠ [] then some ("<".data, rest) else none
  | _ => none

/-- Scanner realising the lazy group 1 of `RE_COND`: the match splits at the
leftmost operator occurrence that has at least one character on each side. -/
def condScan (left : List Char) (s : List Char) : Option (List Char × List Char × List Char) :=
  match s with
  | [] => none
  | c :: cs =>
    match (if left ≠ [] then condOpAt (c :: cs) else none) with
    | some (op, rest) => some (left, op, rest)
    | none => condScan (left ++ [c]) cs

/-- `RE_COND.match` (interpret.py line 15):
`^\s*(.+?)\s*(==|!=|>|<)\s*(.+?)\s*$`, with the `strip()` of line 222
applied to both operand groups.  The greedy leading `\s*` backtracks (making
the left group pure whitespace, hence empty after stripping) only when no
operator occurrence strictly after the leading whitespace completes a
match. -/
def condMatch (c : List Char) : Option (List Char × List Char × List Char) :=
  let w := c.takeWhile pySpace
  let body := c.dropWhile pySpace
  match condScan [] body with
  | some (l, op, r) => some (pyStrip l, op, pyStrip r)
  | none =>
    if w ≠ [] then
      match condOpAt body with
      | some (op, rest) => some ([], op, pyStrip rest)
      | none => none
    else none

/-- A value Python's `eval` can produce from the sanitised expression text:
an `int`, a `float` (modelled as an exact rational), or the empty tuple
(the only tuple constructible without commas, e.g. from `()` or `()+()`). -/
inductive PyVal where
  | int (n : ℤ)
  | float (q : ℚ)
  | tuple
deriving DecidableEq, Repr

/-- The two kinds of exception Python's compile-and-evaluate of the
sanitised expression can raise (both are caught by `eval_expr`'s generic
handler at interpret.py line 212). -/
inductive PyErr where
  | syn
  | typ
deriving DecidableEq, Repr

/-- Tokens of the sanitised arithmetic text. -/
inductive Tok where
  | lpar
  | rpar
  | plus
  | minus
  | num (v : PyVal)
deriving DecidableEq, Repr

/-- Numeric value of a digit string. -/
def natOfDigits (ds : List Char) : ℕ :=
  ds.foldl (fun a c => a * 10 + (c.toNat - 48)) 0

/-- Python rejects decimal integer literals with leading zeros (unless the
literal is all zeros). -/
def leadingZeroBad (ds : List Char) : Bool :=
  ds.head? = some '0' && ds.any (fun c => c ≠ '0')

/-- Lex one numeric literal: `digits`, `digits.digits`, `digits.` or
`.digits`, exactly as Python's tokenizer cuts them (so `1.2.3` lexes as
`1.2` followed by `.3`, which the parser then rejects). -/
def lexNum (s : List Char) : Except PyErr (Tok × List Char) :=
  let d1 := s.takeWhile Char.isDigit
  let r1 := s.dropWhile Char.isDigit
  match r1 with
  | '.' :: r2 =>
    let d2 := r2.takeWhile Char.isDigit
    let rest := r2.dropWhile Char.isDigit
    if d1 = [] ∧ d2 = [] then Except.error PyErr.syn
    else Except.ok (Tok.num (PyVal.float (mkRat (natOfDigits (d1 ++ d2)) (10 ^ d2.length))), rest)
  | _ =>
    if d1 = [] then Except.error PyErr.syn
    else if leadingZeroBad d1 then Except.error PyErr.syn
    else Except.ok (Tok.num (PyVal.int (natOfDigits d1)), r1)

/-- Tokenize the sanitised expression text (fuel-indexed; `s.length + 1`
fuel always suffices since every step consumes a character). -/
def tokenize (fuel : ℕ) (s : List Char) : Except PyErr (List Tok) :=
  match fuel with
  | 0 => Except.error PyErr.syn
  | fuel + 1 =>
    match s with
    | [] => Except.ok []
    | c :: cs =>
      if pySpace c then tokenize fuel cs
      else if c = '(' then (tokenize fuel cs).map (Tok.lpar :: ·)
      else if c = ')' then (tokenize fuel cs).map (Tok.rpar :: ·)
      else if c = '+' then (tokenize fuel cs).map (Tok.plus :: ·)
      else if c = '-' then (tokenize fuel cs).map (Tok.minus :: ·)
      else if c.isDigit || c = '.' then
        match lexNum (c :: cs) with
        | Except.error e => Except.error e
        | Except.ok (t, rest) => (tokenize fuel rest).map (t :: ·)
      else Except.error PyErr.syn

/-- Abstract syntax of the restricted Python expressions: literals, unary
sign, binary `+`/`-`, the empty tuple, and call juxtaposition (which always
fails with a `TypeError` at evaluation time, since no value is callable). -/
inductive Ast where
  | lit (v : PyVal)
  | tup
  | pos (e : Ast)
  | neg (e : Ast)
  | add (a b : Ast)
  | sub (a b : Ast)
  | call0 (f : Ast)
  | call1 (f : Ast) (arg : Ast)
deriving DecidableEq, Repr

mutual

/-- Expression: unary layer followed by left-associated binary `+`/`-`. -/
def parseE (fuel : ℕ) (ts : List Tok) : Except PyErr (Ast × List Tok) :=
  match fuel with
  | 0 => Except.error PyErr.syn
  | f + 1 =>
    match parseU f ts with
    | Except.error e => Except.error e
    | Except.ok (a, r) => parseBin f a r

/-- Left-associative chain of binary `+` and `-`. -/
def parseBin (fuel : ℕ) (acc : Ast) (ts : List Tok) : Except PyErr (Ast × List Tok) :=
  match fuel with
  | 0 => Except.error PyErr.syn
  | f + 1 =>
    match ts with
    | Tok.plus :: r =>
      match parseU f r with
      | Except.error e => Except.error e
      | Except.ok (b, r2) => parseBin f (Ast.add acc b) r2
    | Tok.minus :: r =>
      match parseU f r with
      | Except.error e => Except.error e
      | Except.ok (b, r2) => parseBin f (Ast.sub acc b) r2
    | _ => Except.ok (acc, ts)

/-- Unary `+`/`-` (tighter than binary, chainable). -/
def parseU (fuel : ℕ) (ts : List Tok) : Except PyErr (Ast × List Tok) :=
  match fuel with
  | 0 => Except.error PyErr.syn
  | f + 1 =>
    match ts with
    | Tok.plus :: r => (parseU f r).map (fun p => (Ast.pos p.1, p.2))
    | Tok.minus :: r => (parseU f r).map (fun p => (Ast.neg p.1, p.2))
    | _ => parseAtomT f ts

/-- An atom followed by call trailers. -/
def parseAtomT (fuel : ℕ) (ts : List Tok) : Except PyErr (Ast × List Tok) :=
  match fuel with
  | 0 => Except.error PyErr.syn
  | f + 1 =>
    match parseAtom f ts with
    | Except.error e => Except.error e
    | Except.ok (a, r) => parseTrail f a r

/-- Atom: a literal, the empty tuple `()`, or a parenthesised expression. -/
def parseAtom (fuel : ℕ) (ts : List Tok) : Except PyErr (Ast × List Tok) :=
  match fuel with
  | 0 => Except.error PyErr.syn
  | f + 1 =>
    match ts with
    | Tok.num v :: r => Except.ok (Ast.lit v, r)
    | Tok.lpar :: Tok.rpar :: r => Except.ok (Ast.tup, r)
    | Tok.lpar :: r =>
      match parseE f r with
      | Except.error e => Except.error e
      | Except.ok (e, r2) =>
        match r2 with
        | Tok.rpar :: r3 => Except.ok (e, r3)
        | _ => Except.error PyErr.syn
    | _ => Except.error PyErr.syn

/-- Call trailers `(...)` after an atom (Python parses juxtaposition as a
call; commas cannot occur, so at most one argument). -/
def parseTrail (fuel : ℕ) (a : Ast) (ts : List Tok) : Except PyErr (Ast × List Tok) :=
  match fuel with
  | 0 => Except.error PyErr.syn
  | f + 1 =>
    match ts with
    | Tok.lpar :: Tok.rpar :: r => parseTrail f (Ast.call0 a) r
    | Tok.lpar :: r =>
      match parseE f r with
      | Except.error e => Except.error e
      | Except.ok (e, r2) =>
        match r2 with
        | Tok.rpar :: r3 => parseTrail f (Ast.call1 a e) r3
        | _ => Except.error PyErr.syn
    | _ => Except.ok (a, ts)

end

/-- Python binary `+` on the reachable values. -/
def pyAdd (a b : PyVal) : Except PyErr PyVal :=
  match a, b with
  | PyVal.int x, PyVal.int y => Except.ok (PyVal.int (x + y))
  | PyVal.int x, PyVal.float y => Except.ok (PyVal.float (mkRat x 1 + y))
  | PyVal.float x, PyVal.int y => Except.ok (PyVal.float (x + mkRat y 1))
  | PyVal.float x, PyVal.float y => Except.ok (PyVal.float (x + y))
  | PyVal.tuple, PyVal.tuple => Except.ok PyVal.tuple
  | _, _ => Except.error PyErr.typ

/-- Python binary `-` on the reachable values (tuples never subtract). -/
def pySub (a b : PyVal) : Except PyErr PyVal :=
  match a, b with
  | PyVal.int x, PyVal.int y => Except.ok (PyVal.int (x - y))
  | PyVal.int x, PyVal.float y => Except.ok (PyVal.float (mkRat x 1 - y))
  | PyVal.float x, PyVal.int y => Except.ok (PyVal.float (x - mkRat y 1))
  | PyVal.float x, PyVal.float y => Except.ok (PyVal.float (x - y))
  | _, _ => Except.error PyErr.typ

/-- Evaluate a parsed expression, with Python's run-time `TypeError`s. -/
def evalAst : Ast → Except PyErr PyVal
  | Ast.lit v => Except.ok v
  | Ast.tup => Except.ok PyVal.tuple
  | Ast.pos e =>
    match evalAst e with
    | Except.error er => Except.error er
    | Except.ok PyVal.tuple => Except.error PyErr.typ
    | Except.ok v => Except.ok v
  | Ast.neg e =>
    match evalAst e with
    | Except.error er => Except.error er
    | Except.ok (PyVal.int n) => Except.ok (PyVal.int (-n))
    | Except.ok (PyVal.float q) => Except.ok (PyVal.float (-q))
    | Except.ok PyVal.tuple => Except.error PyErr.typ
  | Ast.add a b =>
    match evalAst a with
    | Except.error er => Except.error er
    | Except.ok va =>
      match evalAst b with
      | Except.error er => Except.error er
      | Except.ok vb => pyAdd va vb
  | Ast.sub a b =>
    match evalAst a with
    | Except.error er => Except.error er
    | Except.ok va =>
      match evalAst b with
      | Except.error er => Except.error er
      | Except.ok vb => pySub va vb
  | Ast.call0 f =>
    match evalAst f with
    | Except.error er => Except.error er
    | Except.ok _ => Except.error PyErr.typ
  | Ast.call1 f e =>
    match evalAst f with
    | Except.error er => Except.error er
    | Except.ok _ =>
      match evalAst e with
      | Except.error er => Except.error er
      | Except.ok _ => Except.error PyErr.typ

/-- `eval(expr_sub, ...)` of interpret.py line 207: compile (tokenize and
parse) then evaluate the sanitised arithmetic text. -/
def pyEval (s : List Char) : Except PyErr PyVal :=
  match tokenize (s.length + 1) s with
  | Except.error e => Except.error e
  | Except.ok ts =>
    match parseE (8 * ts.length + 16) ts with
    | Except.error e => Except.error e
    | Except.ok (a, rest) =>
      match rest with
      | [] => evalAst a
      | _ => Except.error PyErr.syn

/-- The decimal digit character for `n % 10`. -/
def digitChar (n : ℕ) : Char := Char.ofNat (48 + n % 10)

/-- Fuel-indexed helper for `natDigits` (structural recursion so that the
kernel can evaluate it). -/
def natDigitsF (fuel : ℕ) (n : ℕ) : List Char :=
  match fuel with
  | 0 => []
  | fuel + 1 =>
    if n < 10 then [digitChar n]
    else natDigitsF fuel (n / 10) ++ [digitChar (n % 10)]

/-- Decimal digit string of a natural number (Python `str` on a
non-negative `int`). -/
def natDigits (n : ℕ) : List Char := natDigitsF (n + 1) n

/-- Python `str` of an `int`. -/
def intDigits (n : ℤ) : List Char :=
  if n < 0 then '-' :: natDigits n.natAbs else natDigits n.natAbs

/-- Multiplicity of a prime `p` in `n` (used to find the shortest exact
decimal expansion of a stored float, whose denominator is always of the
form `2^a * 5^b` for values reachable in this interpreter). -/
def pMultF (p : ℕ) (fuel : ℕ) (n : ℕ) : ℕ :=
  match fuel with
  | 0 => 0
  | fuel + 1 =>
    if 2 ≤ p ∧ 2 ≤ n ∧ n % p = 0 then pMultF p fuel (n / p) + 1
    else 0

/-- Multiplicity of `p` in `n`. -/
def pMult (p : ℕ) (n : ℕ) : ℕ := pMultF p (n + 1) n

/-- Decimal digit string of `r` left-padded with zeros to `k` digits. -/
def padDigits (k : ℕ) (r : ℕ) : List Char :=
  let d := natDigits r
  List.replicate (k - d.length) '0' ++ d

/-- Python `str` of a float, for the floats this interpreter can store:
shortest exact decimal expansion, with `.0` appended to whole values
(`str(7.0) = "7.0"`, `str(4.5) = "4.5"`, `str(0.25) = "0.25"`). -/
def floatRepr (q : ℚ) : List Char :=
  let sign : List Char := if q < 0 then ['-'] else []
  let a := if q < 0 then -q else q
  let k := max (pMult 2 a.den) (pMult 5 a.den)
  let m := a.num.natAbs * 10 ^ k / a.den
  if k = 0 then sign ++ natDigits m ++ ['.', '0']
  else sign ++ natDigits (m / 10 ^ k) ++ '.' :: padDigits k (m % 10 ^ k)

/-- Python `str` of a value, as used when substituting a variable's stored
value into the expression text (interpret.py line 196). -/
def strOfVal (v : PyVal) : List Char :=
  match v with
  | PyVal.int n => intDigits n
  | PyVal.float q => floatRepr q
  | PyVal.tuple => ['(', ')']

/-- Python 3 `round` to an integer: nearest, ties to even (the quotient
`q.num / q.den` is the floor of `q`, the divisor being positive). -/
def roundHalfEven (q : ℚ) : ℤ :=
  if q - mkRat (q.num / (q.den : ℤ)) 1 < mkRat 1 2 then q.num / (q.den : ℤ)
  else if mkRat 1 2 < q - mkRat (q.num / (q.den : ℤ)) 1 then q.num / (q.den : ℤ) + 1
  else if q.num / (q.den : ℤ) % 2 = 0 then q.num / (q.den : ℤ)
  else q.num / (q.den : ℤ) + 1

/-- Python `float(val)` on a reachable value; `none` models the `TypeError`
raised on a tuple. -/
def toFloat (v : PyVal) : Option ℚ :=
  match v with
  | PyVal.int n => some (mkRat n 1)
  | PyVal.float q => some q
  | PyVal.tuple => none

/-- The `%.2f` formatting of interpret.py lines 100 and 160: sign, then the
magnitude rounded half-to-even at two decimal digits. -/
def fmt2 (q : ℚ) : List Char :=
  (if q < 0 then ['-'] else []) ++
    natDigits ((roundHalfEven ((if q < 0 then -q else q) * 100)).toNat / 100) ++
    ['.', digitChar ((roundHalfEven ((if q < 0 then -q else q) * 100)).toNat % 100 / 10),
      digitChar ((roundHalfEven ((if q < 0 then -q else q) * 100)).toNat % 100)]

/-- Display formatting of an output payload value (interpret.py lines
98-107): a non-whole float prints with two decimals, a whole number prints
as a plain integer, and a tuple falls into the bare `except` and prints as
`str(())`. -/
def formatVal (v : PyVal) : List Char :=
  match v with
  | PyVal.float q => if q.den ≠ 1 then fmt2 q else intDigits q.num
  | PyVal.int n => intDigits n
  | PyVal.tuple => ['(', ')']

/-- One diagnostic message per `self.error(...)` call site of interpret.py,
carrying the interpolated data of the corresponding format string. -/
inductive Msg where
  | redeclared (name : List Char)
  | assignUndeclared (name : List Char)
  | cannotConvert (name : List Char)
  | undeclaredInExpr (name : List Char)
  | usedBeforeAssign (name : List Char)
  | illegalChar (expr : List Char)
  | illegalAfterSubst (exprSub : List Char)
  | evalError (expr : List Char) (e : PyErr)
  | ifNoSemicolon
  | assignUndeclaredInIf (name : List Char)
  | unsupportedInIf
  | invalidCondFormat (cond : List Char)
  | unsupportedOp (op : List Char)
  | condEvalError
  | unrecognized
deriving DecidableEq, Repr

/-- A recorded diagnostic (`Interpreter.error`, interpret.py lines 41-45);
every call site in `parse_and_run`/`eval_expr`/`eval_condition` passes a
line number. -/
structure Diag where
  line : Option ℕ
  msg : Msg
deriving DecidableEq, Repr

/-- The variable store `self.vars`: name to (declared type, value or
unset), insertion-ordered as a Python dict. -/
def VarMap : Type := List (List Char × Ty × Option PyVal)

instance : DecidableEq VarMap := by
  unfold VarMap
  infer_instance

instance : Repr VarMap := by
  unfold VarMap
  infer_instance

/-- Dict lookup `self.vars[name]` / membership `name in self.vars`. -/
def lookupVar (vs : VarMap) (x : List Char) : Option (Ty × Option PyVal) :=
  match vs with
  | [] => none
  | (m, tv) :: rest => if m = x then some tv else lookupVar rest x

/-- Dict assignment `self.vars[name] = tv`: replace in place if present,
append otherwise. -/
def setVar (vs : VarMap) (n : List Char) (tv : Ty × Option PyVal) : VarMap :=
  match vs with
  | [] => [(n, tv)]
  | (m, tv0) :: rest => if m = n then (n, tv) :: rest else (m, tv0) :: setVar rest n tv

/-- Failure of the identifier substitution `var_repl` (interpret.py lines
189-199): the `ValueError` is caught and the recorded diagnostic keeps the
failing name. -/
inductive SubstErr where
  | undeclared (name : List Char)
  | unset (name : List Char)
deriving DecidableEq, Repr

theorem dropWhile_length_le (p : Char → Bool) (l : List Char) :
    (l.dropWhile p).length ≤ l.length :=
  (List.dropWhile_sublist p).length_le

/-- `re.sub(r'\b[A-Za-z]\w*\b', var_repl, expr)` (interpret.py line 200):
every maximal word-character run that starts with a letter is an identifier
occurrence and is replaced by `str` of its stored value; the first failing
occurrence aborts.  Runs starting with a digit are left untouched (no word
boundary precedes their inner letters).  Fuel-indexed (any fuel above the
length of the text gives the same result, as each step consumes at least
one character). -/
def substituteF (vars : VarMap) (fuel : ℕ) (s : List Char) : Except SubstErr (List Char) :=
  match fuel with
  | 0 => Except.ok []
  | fuel + 1 =>
    match s with
    | [] => Except.ok []
    | c :: cs =>
      if isWordChar c then
        let run := c :: cs.takeWhile isWordChar
        let rest := cs.dropWhile isWordChar
        if c.isAlpha then
          match lookupVar vars run with
          | none => Except.error (SubstErr.undeclared run)
          | some (_, none) => Except.error (SubstErr.unset run)
          | some (_, some v) => (substituteF vars fuel rest).map (fun t => strOfVal v ++ t)
        else
          (substituteF vars fuel rest).map (fun t => run ++ t)
      else
        (substituteF vars fuel cs).map (fun t => c :: t)

/-- The identifier substitution of interpret.py line 200. -/
def substitute (vars : VarMap) (s : List Char) : Except SubstErr (List Char) :=
  substituteF vars (s.length + 1) s

/-- The identifier occurrences of an expression text, in order: the maximal
word-character runs that start with a letter (exactly the occurrences
`substitute` resolves), fuel-indexed like `substituteF`. -/
def identOccsF (fuel : ℕ) (s : List Char) : List (List Char) :=
  match fuel with
  | 0 => []
  | fuel + 1 =>
    match s with
    | [] => []
    | c :: cs =>
      if isWordChar c then
        let run := c :: cs.takeWhile isWordChar
        let rest := cs.dropWhile isWordChar
        if c.isAlpha then run :: identOccsF fuel rest else identOccsF fuel rest
      else identOccsF fuel cs

/-- The identifier occurrences of an expression text, in order. -/
def identOccs (s : List Char) : List (List Char) := identOccsF (s.length + 1) s

/-- `Interpreter.eval_expr` (interpret.py lines 174-214): character check,
identifier substitution, post-substitution character check, then Python
evaluation; each failure records exactly the one diagnostic of its call
site and yields no value. -/
def evalExpr (vars : VarMap) (expr : List Char) (i : ℕ) : Except Diag PyVal :=
  if expr.any badChar then Except.error ⟨some i, Msg.illegalChar expr⟩
  else
    match substitute vars expr with
    | Except.error (SubstErr.undeclared n) => Except.error ⟨some i, Msg.undeclaredInExpr n⟩
    | Except.error (SubstErr.unset n) => Except.error ⟨some i, Msg.usedBeforeAssign n⟩
    | Except.ok exprSub =>
      if exprSub.any badChar2 then Except.error ⟨some i, Msg.illegalAfterSubst exprSub⟩
      else
        match pyEval exprSub with
        | Except.error e => Except.error ⟨some i, Msg.evalError expr e⟩
        | Except.ok v => Except.ok v

/-- Python `==` on reachable values: numeric cross-type equality; a tuple
equals only a tuple (no exception). -/
def pyEq (a b : PyVal) : Bool :=
  match a, b with
  | PyVal.int x, PyVal.int y => x = y
  | PyVal.int x, PyVal.float y => mkRat x 1 = y
  | PyVal.float x, PyVal.int y => x = mkRat y 1
  | PyVal.float x, PyVal.float y => x = y
  | PyVal.tuple, PyVal.tuple => true
  | _, _ => false

/-- Python `>` on reachable values; comparing a tuple with a number raises
`TypeError` (empty tuples compare equal, so `() > ()` is false). -/
def pyGt (a b : PyVal) : Except PyErr Bool :=
  match a, b with
  | PyVal.int x, PyVal.int y => Except.ok (decide (y < x))
  | PyVal.int x, PyVal.float y => Except.ok (decide (y < mkRat x 1))
  | PyVal.float x, PyVal.int y => Except.ok (decide (mkRat y 1 < x))
  | PyVal.float x, PyVal.float y => Except.ok (decide (y < x))
  | PyVal.tuple, PyVal.tuple => Except.ok false
  | _, _ => Except.error PyErr.typ

/-- Python `<` on reachable values. -/
def pyLt (a b : PyVal) : Except PyErr Bool :=
  match a, b with
  | PyVal.int x, PyVal.int y => Except.ok (decide (x < y))
  | PyVal.int x, PyVal.float y => Except.ok (decide (mkRat x 1 < y))
  | PyVal.float x, PyVal.int y => Except.ok (decide (x < mkRat y 1))
  | PyVal.float x, PyVal.float y => Except.ok (decide (x < y))
  | PyVal.tuple, PyVal.tuple => Except.ok false
  | _, _ => Except.error PyErr.typ

/-- `Interpreter.eval_condition` (interpret.py lines 216-243): match
`RE_COND`, evaluate both sides, dispatch on the captured operator string
(with the dead `Unsupported operator` branch), and catch comparison
`TypeError`s as an `Error evaluating condition` diagnostic. -/
def evalCondition (vars : VarMap) (cond : List Char) (i : ℕ) : Except Diag Bool :=
  match condMatch cond with
  | none => Except.error ⟨some i, Msg.invalidCondFormat cond⟩
  | some (l, op, r) =>
    match evalExpr vars l i with
    | Except.error d => Except.error d
    | Except.ok lv =>
      match evalExpr vars r i with
      | Except.error d => Except.error d
      | Except.ok rv =>
        if op = "==".data then Except.ok (pyEq lv rv)
        else if op = "!=".data then Except.ok (!pyEq lv rv)
        else if op = ">".data then
          match pyGt lv rv with
          | Except.ok b => Except.ok b
          | Except.error _ => Except.error ⟨some i, Msg.condEvalError⟩
        else if op = "<".data then
          match pyLt lv rv with
          | Except.ok b => Except.ok b
          | Except.error _ => Except.error ⟨some i, Msg.condEvalError⟩
        else Except.error ⟨some i, Msg.unsupportedOp op⟩

/-- The interpreter state built by `Interpreter.__init__` and mutated by
`parse_and_run`: the variable store and the two append-only sequences. -/
structure State where
  vars : VarMap
  errors : List Diag
  outputs : List (List Char)
deriving DecidableEq, Repr

/-- Append one diagnostic (`self.error(msg, i)`). -/
def addErr (st : State) (i : ℕ) (m : Msg) : State :=
  { st with errors := st.errors ++ [⟨some i, m⟩] }

/-- The assignment body shared verbatim by the top-level handler
(interpret.py lines 65-85) and the conditional-body handler (lines
130-148); the two copies differ only in the undeclared-variable message.
Returns `none` for the uncaught `TypeError` of `val = float(val)` on a
tuple value assigned to a double (lines 83 and 146). -/
def execAssignCore (insideIf : Bool) (st : State) (i : ℕ) (name expr : List Char) :
    Option State :=
  match lookupVar st.vars name with
  | none =>
    some (addErr st i (if insideIf then Msg.assignUndeclaredInIf name else Msg.assignUndeclared name))
  | some (ty, _) =>
    match evalExpr st.vars expr i with
    | Except.error d => some { st with errors := st.errors ++ [d] }
    | Except.ok v =>
      match ty with
      | Ty.integer =>
        match toFloat v with
        | none => some (addErr st i (Msg.cannotConvert name))
        | some q =>
          some { st with vars := setVar st.vars name (Ty.integer, some (PyVal.int (roundHalfEven q))) }
      | Ty.double =>
        match toFloat v with
        | none => none
        | some q => some { st with vars := setVar st.vars name (Ty.double, some (PyVal.float q)) }

/-- The output body shared verbatim by the top-level handler (interpret.py
lines 89-108) and the conditional-body handler (lines 152-167): a quoted
payload is emitted with its first and last characters stripped, otherwise
the payload is evaluated and formatted. -/
def execOutputCore (st : State) (i : ℕ) (payload : List Char) : State :=
  if payload.head? = some '"' ∧ payload.getLast? = some '"' then
    { st with outputs := st.outputs ++ [(payload.drop 1).dropLast] }
  else
    match evalExpr st.vars payload i with
    | Except.error d => { st with errors := st.errors ++ [d] }
    | Except.ok v => { st with outputs := st.outputs ++ [formatVal v] }

/-- The conditional handler (interpret.py lines 111-170): evaluate the
condition; on error record it, on false do nothing, on true require a
trailing `;` and re-match the inner statement as assignment or output. -/
def execIf (st : State) (i : ℕ) (cond stmt : List Char) : Option State :=
  match evalCondition st.vars cond i with
  | Except.error d => some { st with errors := st.errors ++ [d] }
  | Except.ok false => some st
  | Except.ok true =>
    if stmt.getLast? ≠ some ';' then some (addErr st i Msg.ifNoSemicolon)
    else
      match assignMatch stmt with
      | some (name, expr) => execAssignCore true st i name expr
      | none =>
        match outputMatch stmt with
        | some payload => some (execOutputCore st i payload)
        | none => some (addErr st i Msg.unsupportedInIf)

/-- One iteration of the `parse_and_run` loop (interpret.py lines 49-172):
strip the raw line, skip it if empty, and dispatch to the first matching
statement form, recording `Unrecognized or invalid syntax` when none
matches.  `none` models the uncaught `TypeError` described at
`execAssignCore`. -/
def processLine (st : State) (i : ℕ) (raw : List Char) : Option State :=
  let line := pyStrip raw
  if line = [] then some st
  else
    match declMatch line with
    | some (name, ty) =>
      some (if (lookupVar st.vars name).isSome then addErr st i (Msg.redeclared name)
            else { st with vars := setVar st.vars name (ty, none) })
    | none =>
      match assignMatch line with
      | some (name, expr) => execAssignCore false st i name expr
      | none =>
        match outputMatch line with
        | some payload => some (execOutputCore st i payload)
        | none =>
          match ifMatch line with
          | some (cond, stmt) => execIf st i cond stmt
          | none => some (addErr st i Msg.unrecognized)

/-- The `parse_and_run` loop over the enumerated source lines, numbering
from `i`; `none` when an iteration raises. -/
def runLinesAux (st : State) (i : ℕ) : List (List Char) → Option State
  | [] => some st
  | l :: ls =>
    match processLine st i l with
    | none => none
    | some st2 => runLinesAux st2 (i + 1) ls

/-- The fresh state built by `Interpreter.__init__` (interpret.py lines
34-39): empty variable store, no errors, no outputs. -/
def initState : State := ⟨[], [], []⟩

/-- Split source text into lines at `\n`, as `str.splitlines` does for
newline-separated text (a trailing newline yields no extra empty line). -/
def splitOnNl : List Char → List (List Char)
  | [] => [[]]
  | c :: rest =>
    if c = '\n' then [] :: splitOnNl rest
    else
      match splitOnNl rest with
      | [] => [[c]]
      | p :: ps => (c :: p) :: ps

/-- Python `str.splitlines` restricted to `\n` separators. -/
def pySplitlines (s : List Char) : List (List Char) :=
  if s = [] then []
  else if s.getLast? = some '\n' then (splitOnNl s).dropLast
  else splitOnNl s

/-- The core entry point: construct a fresh `Interpreter` on the source
text and run `parse_and_run`; `none` models a run that dies with the
uncaught `TypeError`. -/
def runProgram (src : String) : Option State :=
  runLinesAux initState 1 (pySplitlines src.data)

/-- The rounding used on assignment to an Integer variable lands within
half a unit of the evaluated value. -/
theorem roundHalfEven_dist (q : ℚ) : |(roundHalfEven q : ℚ) - q| ≤ 1 / 2 := by
  have hfl : ((q.num / (q.den : ℤ) : ℤ) : ℚ) ≤ q ∧ q < ((q.num / (q.den : ℤ) : ℤ) : ℚ) + 1 := by
    rw [← Rat.floor_def]
    exact ⟨Int.floor_le q, Int.lt_floor_add_one q⟩
  obtain ⟨h1, h2⟩ := hfl
  have hhalf : (mkRat 1 2 : ℚ) = 1 / 2 := by
    rw [Rat.mkRat_eq_div]
    norm_num
  unfold roundHalfEven
  rw [Rat.mkRat_one, hhalf]
  split_ifs with hlt hgt hev
  · rw [abs_le]
    constructor <;> linarith
  · rw [abs_le]
    push_cast
    constructor <;> linarith
  · rw [abs_le]
    constructor <;> linarith
  · rw [abs_le]
    push_cast
    constructor <;> linarith

theorem digitChar_isDigit (n : ℕ) : (digitChar n).isDigit = true := by
  have h : n % 10 = 0 ∨ n % 10 = 1 ∨ n % 10 = 2 ∨ n % 10 = 3 ∨ n % 10 = 4 ∨ n % 10 = 5 ∨
      n % 10 = 6 ∨ n % 10 = 7 ∨ n % 10 = 8 ∨ n % 10 = 9 := by omega
  unfold digitChar
  rcases h with h | h | h | h | h | h | h | h | h | h <;> rw [h] <;> decide

theorem natDigitsF_all_digit (fuel : ℕ) : ∀ n c, c ∈ natDigitsF fuel n → c.isDigit = true := by
  induction fuel with
  | zero => intro n c hc; simp [natDigitsF] at hc
  | succ f ih =>
    intro n c hc
    unfold natDigitsF at hc
    split at hc
    · simp only [List.mem_singleton] at hc
      rw [hc]
      exact digitChar_isDigit n
    · rw [List.mem_append] at hc
      rcases hc with hc | hc
      · exact ih _ _ hc
      · simp only [List.mem_singleton] at hc
        rw [hc]
        exact digitChar_isDigit _

theorem natDigits_all_digit (n : ℕ) : ∀ c ∈ natDigits n, c.isDigit = true :=
  natDigitsF_all_digit (n + 1) n

theorem intDigits_no_dot (n : ℤ) : '.' ∉ intDigits n := by
  unfold intDigits
  split <;> intro hmem
  · rcases List.mem_cons.mp hmem with h | h
    · exact absurd h (by decide)
    · have := natDigits_all_digit n.natAbs '.' h
      exact absurd this (by decide)
  · have := natDigits_all_digit n.natAbs '.' hmem
    exact absurd this (by decide)

/-- C2.  Running the interpreter on the three-line program `y: double;` /
`if (1 < 2) y := 10 - 3;` / `output << y;` yields exactly the output
sequence `["7"]` (the whole-valued double is displayed without decimals)
and an empty diagnostics sequence. -/
theorem C2_thm :
    runProgram "y: double;\nif (1 < 2) y := 10 - 3;\noutput << y;" =
      some ⟨[("y".data, Ty.double, some (PyVal.float 7))], [], ["7".data]⟩ := by
  decide

/-- C3.  The source `x: double;` / `x := ();` / `output << 1;` makes the
run die with an uncaught `TypeError` at `val = float(val)` (interpret.py
line 83): the expression `()` evaluates to an empty tuple and the target is
a double, so line 3 is never processed — contradicting the claim that every
line of the source is processed and no failure is fatal to the run. -/
theorem C3_thm : runProgram "x: double;\nx := ();\noutput << 1;" = none := by
  decide

/-- C1 counterexample.  Assigning `2.5` to an Integer variable stores `2`
(and `-2.5` stores `-2`): Python's `round` rounds ties to even, not away
from zero, so the claim's required values `3` and `-3` are wrong. -/
theorem C1_counterexample :
    runProgram "x: integer;\nx := 2.5;" =
      some ⟨[("x".data, Ty.integer, some (PyVal.int 2))], [], []⟩ ∧
    runProgram "x: integer;\nx := -2.5;" =
      some ⟨[("x".data, Ty.integer, some (PyVal.int (-2)))], [], []⟩ := by
  constructor <;> decide

/-- C1 (amended).  For every assignment (top-level or inside a conditional
body, the shared `execAssignCore` covering both code paths) to a variable
declared Integer whose expression evaluates to a numeric value `q`, the
stored value is `roundHalfEven q`: a whole number within half a unit of
`q`, with ties rounded to even — in particular `2.5` stores `2` and `-2.5`
stores `-2`. -/
theorem C1_thm (insideIf : Bool) (st : State) (i : ℕ) (name expr : List Char)
    (w : Option PyVal) (v : PyVal) (q : ℚ)
    (hlk : lookupVar st.vars name = some (Ty.integer, w))
    (hev : evalExpr st.vars expr i = Except.ok v)
    (hq : toFloat v = some q) :
    execAssignCore insideIf st i name expr =
      some { st with vars := setVar st.vars name (Ty.integer, some (PyVal.int (roundHalfEven q))) } ∧
    |(roundHalfEven q : ℚ) - q| ≤ 1 / 2 ∧
    roundHalfEven (mkRat 5 2) = 2 ∧ roundHalfEven (mkRat (-5) 2) = -2 := by
  refine ⟨?_, roundHalfEven_dist q, by decide, by decide⟩
  simp [execAssignCore, hlk, hev, hq]

/-- C1 witness: assigning `2.5` to the declared Integer `x` stores
`roundHalfEven (5/2)`. -/
theorem C1_witness :
    execAssignCore false ⟨[("x".data, Ty.integer, none)], [], []⟩ 2 "x".data "2.5".data =
      some { (⟨[("x".data, Ty.integer, none)], [], []⟩ : State) with
        vars := setVar [("x".data, Ty.integer, none)] "x".data
          (Ty.integer, some (PyVal.int (roundHalfEven (mkRat 5 2)))) } :=
  (C1_thm false ⟨[("x".data, Ty.integer, none)], [], []⟩ 2 "x".data "2.5".data none
    (PyVal.float (mkRat 5 2)) (mkRat 5 2) (by decide) (by decide) (by decide)).1

/-- C7.  A conditional line whose condition evaluates successfully to false
has no effect beyond the condition evaluation: whatever the inner statement
text is (malformed or not), the state — variables, outputs and diagnostics —
is returned unchanged. -/
theorem C7_thm (st : State) (i : ℕ) (cond stmt : List Char)
    (h : evalCondition st.vars cond i = Except.ok false) :
    execIf st i cond stmt = some st := by
  simp [execIf, h]

/-- C7 witness: `if (2 < 1) garbage` leaves the fresh state untouched. -/
theorem C7_witness : execIf initState 1 "2 < 1".data "garbage".data = some initState :=
  C7_thm initState 1 "2 < 1".data "garbage".data (by decide)

/-- C8.  An expression text containing any character outside letters,
digits, `.`, `+`, `-`, parentheses and whitespace (in particular `*` or
`/`) makes `eval_expr` fail immediately with the illegal-character
diagnostic and no value — before substitution or evaluation can touch the
state. -/
theorem C8_thm (vars : VarMap) (expr : List Char) (i : ℕ)
    (h : expr.any badChar = true) :
    evalExpr vars expr i = Except.error ⟨some i, Msg.illegalChar expr⟩ := by
  simp [evalExpr, h]

/-- C8 witness: `1 * 2` contains the illegal character `*`. -/
theorem C8_witness :
    evalExpr [] "1 * 2".data 1 = Except.error ⟨some 1, Msg.illegalChar "1 * 2".data⟩ :=
  C8_thm [] "1 * 2".data 1 (by decide)

/-- C9.  The interpreter core is a pure function of the source text and
each run starts from the fresh `__init__` state, so a second run of a
source whose first run produced no diagnostics produces the same outputs
and again no diagnostics. -/
theorem C9_thm (src : String) (st1 : State)
    (h1 : runProgram src = some st1) (h2 : st1.errors = []) :
    ∃ st2, runProgram src = some st2 ∧ st2.outputs = st1.outputs ∧ st2.errors = [] :=
  ⟨st1, h1, rfl, h2⟩

/-- C9 witness: the end-to-end scenario A program, run twice. -/
theorem C9_witness :
    ∃ st2, runProgram "x: integer;\nx := 3 + 2;\noutput << x;" = some st2 ∧
      st2.outputs = (⟨[("x".data, Ty.integer, some (PyVal.int 5))], [], ["5".data]⟩ : State).outputs ∧
      st2.errors = [] :=
  C9_thm "x: integer;\nx := 3 + 2;\noutput << x;"
    ⟨[("x".data, Ty.integer, some (PyVal.int 5))], [], ["5".data]⟩ (by decide) (by decide)

theorem fmt2_shape (q : ℚ) :
    ∃ pre d1 d2, fmt2 q = pre ++ ['.', d1, d2] ∧ d1.isDigit = true ∧ d2.isDigit = true := by
  unfold fmt2
  exact ⟨_, _, _, rfl, digitChar_isDigit _, digitChar_isDigit _⟩

/-- C6.  An output payload evaluating to a numeric value is emitted through
the display formatting of interpret.py lines 98-107: a non-whole float is
rendered with exactly two decimal digits after a `.` (e.g. `4.5` emits
`"4.50"`), and a whole value — float or int — is rendered as a plain integer
string containing no decimal point (e.g. the double `4.0` emits `"4"`). -/
theorem C6_thm (st : State) (i : ℕ) (payload : List Char) (v : PyVal)
    (hlit : ¬(payload.head? = some '"' ∧ payload.getLast? = some '"'))
    (hev : evalExpr st.vars payload i = Except.ok v) :
    (execOutputCore st i payload).outputs = st.outputs ++ [formatVal v] ∧
    (∀ q : ℚ, v = PyVal.float q → q.den ≠ 1 →
      ∃ pre d1 d2, formatVal v = pre ++ ['.', d1, d2] ∧ d1.isDigit = true ∧ d2.isDigit = true) ∧
    (∀ q : ℚ, v = PyVal.float q → q.den = 1 → '.' ∉ formatVal v) ∧
    (∀ n : ℤ, v = PyVal.int n → '.' ∉ formatVal v) ∧
    formatVal (PyVal.float (mkRat 9 2)) = "4.50".data ∧
    formatVal (PyVal.float (mkRat 4 1)) = "4".data := by
  refine ⟨?_, ?_, ?_, ?_, by decide, by decide⟩
  · simp [execOutputCore, hlit, hev]
  · rintro q rfl hden
    simpa [formatVal, hden] using fmt2_shape q
  · rintro q rfl hden
    simp only [formatVal, hden, ne_eq, not_true_eq_false, if_false]
    exact intDigits_no_dot q.num
  · rintro n rfl
    simp only [formatVal]
    exact intDigits_no_dot n

/-- C6 witness: outputting the payload `4.5` from a fresh state emits
`"4.50"`. -/
theorem C6_witness :
    (execOutputCore initState 3 "4.5".data).outputs =
      initState.outputs ++ [formatVal (PyVal.float (mkRat 9 2))] :=
  (C6_thm initState 3 "4.5".data (PyVal.float (mkRat 9 2)) (by decide) (by decide)).1

theorem substituteF_ok_resolves (vars : VarMap) :
    ∀ fuel s t, substituteF vars fuel s = Except.ok t →
      ∀ n ∈ identOccsF fuel s, ∃ ty w, lookupVar vars n = some (ty, some w) := by
  intro fuel
  induction fuel with
  | zero => intro s t _ n hn; simp [identOccsF] at hn
  | succ f ih =>
    intro s t hok n hn
    match s with
    | [] => simp [identOccsF] at hn
    | c :: cs =>
      unfold substituteF at hok
      unfold identOccsF at hn
      by_cases hw : isWordChar c
      · simp only [hw, if_true] at hok hn
        by_cases ha : c.isAlpha
        · simp only [ha, if_true] at hok hn
          match hlk : lookupVar vars (c :: cs.takeWhile isWordChar) with
          | none => rw [hlk] at hok; exact absurd hok (by simp)
          | some (ty, none) => rw [hlk] at hok; exact absurd hok (by simp)
          | some (ty, some v) =>
            rw [hlk] at hok
            rcases List.mem_cons.mp hn with hn | hn
            · exact ⟨ty, v, hn ▸ hlk⟩
            · match hrec : substituteF vars f (cs.dropWhile isWordChar) with
              | Except.error e => rw [hrec] at hok; exact absurd hok (by simp [Except.map])
              | Except.ok t2 => exact ih _ _ hrec n hn
        · simp only [ha, if_false] at hok hn
          match hrec : substituteF vars f (cs.dropWhile isWordChar) with
          | Except.error e => rw [hrec] at hok; exact absurd hok (by simp [Except.map])
          | Except.ok t2 => exact ih _ _ hrec n hn
      · simp only [hw, if_false] at hok hn
        match hrec : substituteF vars f cs with
        | Except.error e => rw [hrec] at hok; exact absurd hok (by simp [Except.map])
        | Except.ok t2 => exact ih _ _ hrec n hn

theorem substituteF_first_unset (vars : VarMap) :
    ∀ fuel s as n bs, identOccsF fuel s = as ++ n :: bs →
      (∀ m ∈ as, ∃ ty w, lookupVar vars m = some (ty, some w)) →
      (∃ ty, lookupVar vars n = some (ty, none)) →
      substituteF vars fuel s = Except.error (SubstErr.unset n) := by
  intro fuel
  induction fuel with
  | zero => intro s as n bs hocc _ _; simp [identOccsF] at hocc
  | succ f ih =>
    intro s as n bs hocc has hn
    match s with
    | [] => simp [identOccsF] at hocc
    | c :: cs =>
      unfold identOccsF at hocc
      unfold substituteF
      by_cases hw : isWordChar c
      · simp only [hw, if_true] at hocc ⊢
        by_cases ha : c.isAlpha
        · simp only [ha, if_true] at hocc ⊢
          match as, hocc with
          | [], hocc =>
            obtain ⟨hrun, _⟩ := List.cons.inj hocc
            obtain ⟨ty, hl⟩ := hn
            rw [← hrun] at hl
            rw [hl, hrun]
          | a :: as2, hocc =>
            obtain ⟨hrun, hrest⟩ := List.cons.inj hocc
            obtain ⟨ty, w, hl⟩ := has a (by simp)
            rw [← hrun] at hl
            rw [hl]
            rw [ih _ as2 n bs hrest (fun m hm => has m (by simp [hm])) hn]
            rfl
        · simp only [ha, if_false] at hocc ⊢
          rw [ih _ as n bs hocc has hn]
          rfl
      · simp only [hw, if_false] at hocc ⊢
        rw [ih _ as n bs hocc has hn]
        rfl

/-- C5 counterexample.  In `y: integer;` / `output << z + y;` the payload
references the declared-but-unset `y`, yet the recorded diagnostic is the
`Undeclared variable 'z'` one — substitution fails on the earlier
occurrence `z` first, so an unset reference does not always yield the
UsedBeforeAssignment diagnostic. -/
theorem C5_counterexample :
    runProgram "y: integer;\noutput << z + y;" =
      some ⟨[("y".data, Ty.integer, none)], [⟨some 2, Msg.undeclaredInExpr "z".data⟩], []⟩ ∧
    "y".data ∈ identOccs "z + y".data ∧
    lookupVar [("y".data, Ty.integer, none)] "y".data = some (Ty.integer, none) := by
  refine ⟨by decide, by decide, by decide⟩

/-- C5 (amended).  An expression referencing a declared-but-unset variable
never evaluates to a value (no silent default is ever substituted), and the
diagnostic is UsedBeforeAssignment for the first failing occurrence: when
the illegal-character check passes and every identifier occurrence before
the unset one resolves, evaluation fails with exactly
`UsedBeforeAssignment` for that occurrence. -/
theorem C5_thm :
    (∀ (vars : VarMap) (expr : List Char) (i : ℕ),
        (∃ n ∈ identOccs expr, ∃ ty, lookupVar vars n = some (ty, none)) →
        ∃ d, evalExpr vars expr i = Except.error d) ∧
    (∀ (vars : VarMap) (expr : List Char) (i : ℕ) (as : List (List Char)) (n : List Char)
        (bs : List (List Char)) (ty : Ty),
        expr.any badChar = false →
        identOccs expr = as ++ n :: bs →
        (∀ m ∈ as, ∃ ty2 w, lookupVar vars m = some (ty2, some w)) →
        lookupVar vars n = some (ty, none) →
        evalExpr vars expr i = Except.error ⟨some i, Msg.usedBeforeAssign n⟩) := by
  constructor
  · intro vars expr i ⟨n, hmem, ty, hun⟩
    by_cases hbc : expr.any badChar
    · exact ⟨⟨some i, Msg.illegalChar expr⟩, by simp [evalExpr, hbc]⟩
    · match hsub : substitute vars expr with
      | Except.error (SubstErr.undeclared m) =>
        refine ⟨⟨some i, Msg.undeclaredInExpr m⟩, ?_⟩
        simp only [evalExpr, hbc, Bool.false_eq_true, if_false]
        rw [hsub]
      | Except.error (SubstErr.unset m) =>
        refine ⟨⟨some i, Msg.usedBeforeAssign m⟩, ?_⟩
        simp only [evalExpr, hbc, Bool.false_eq_true, if_false]
        rw [hsub]
      | Except.ok t =>
        obtain ⟨ty2, w, hw⟩ := substituteF_ok_resolves vars _ _ _ hsub n hmem
        rw [hun] at hw
        exact absurd hw (by simp)
  · intro vars expr i as n bs ty hbc hocc has hn
    have hsub : substitute vars expr = Except.error (SubstErr.unset n) :=
      substituteF_first_unset vars _ _ as n bs hocc has ⟨ty, hn⟩
    simp only [evalExpr, hbc, Bool.false_eq_true, if_false]
    rw [hsub]

/-- C5 witness: referencing the declared-but-unset `y` alone fails with
UsedBeforeAssignment. -/
theorem C5_witness :
    evalExpr [("y".data, Ty.integer, none)] "y".data 1 =
      Except.error ⟨some 1, Msg.usedBeforeAssign "y".data⟩ :=
  C5_thm.2 [("y".data, Ty.integer, none)] "y".data 1 [] "y".data [] Ty.integer
    (by decide) (by decide) (by simp) (by decide)

theorem lookupVar_setVar_self (vs : VarMap) (n : List Char) (tv : Ty × Option PyVal) :
    lookupVar (setVar vs n tv) n = some tv := by
  induction vs with
  | nil => simp [setVar, lookupVar]
  | cons p rest ih =>
    obtain ⟨m, tv0⟩ := p
    by_cases h : m = n
    · simp [setVar, lookupVar, h]
    · simp [setVar, lookupVar, h, ih]

theorem lookupVar_setVar_ne (vs : VarMap) (n x : List Char) (tv : Ty × Option PyVal)
    (h : x ≠ n) : lookupVar (setVar vs n tv) x = lookupVar vs x := by
  have h2 : n ≠ x := Ne.symm h
  induction vs with
  | nil => simp [setVar, lookupVar, h2]
  | cons p rest ih =>
    obtain ⟨m, tv0⟩ := p
    by_cases hm : m = n
    · subst hm
      simp [setVar, lookupVar, h2]
    · simp only [setVar, if_neg hm, lookupVar]
      by_cases hx : m = x
      · simp [hx]
      · simp [hx, ih]

/-- Every diagnostic `eval_expr` can record comes from one of its five
`self.error` call sites, always at the given line. -/
theorem evalExpr_error_shape (vars : VarMap) (e : List Char) (i : ℕ) (d : Diag)
    (h : evalExpr vars e i = Except.error d) :
    d.line = some i ∧
    ((∃ s, d.msg = Msg.illegalChar s) ∨ (∃ n, d.msg = Msg.undeclaredInExpr n) ∨
      (∃ n, d.msg = Msg.usedBeforeAssign n) ∨ (∃ s, d.msg = Msg.illegalAfterSubst s) ∨
      (∃ s e2, d.msg = Msg.evalError s e2)) := by
  unfold evalExpr at h
  split at h
  · obtain ⟨rfl⟩ := Except.error.inj h
    exact ⟨rfl, Or.inl ⟨e, rfl⟩⟩
  · split at h
    · obtain ⟨rfl⟩ := Except.error.inj h
      exact ⟨rfl, Or.inr (Or.inl ⟨_, rfl⟩)⟩
    · obtain ⟨rfl⟩ := Except.error.inj h
      exact ⟨rfl, Or.inr (Or.inr (Or.inl ⟨_, rfl⟩))⟩
    · split at h
      · obtain ⟨rfl⟩ := Except.error.inj h
        exact ⟨rfl, Or.inr (Or.inr (Or.inr (Or.inl ⟨_, rfl⟩)))⟩
      · split at h
        · obtain ⟨rfl⟩ := Except.error.inj h
          exact ⟨rfl, Or.inr (Or.inr (Or.inr (Or.inr ⟨_, _, rfl⟩)))⟩
        · exact absurd h (by simp)

theorem evalExpr_error_not_redecl (vars : VarMap) (e : List Char) (i : ℕ) (d : Diag)
    (x : List Char) (h : evalExpr vars e i = Except.error d) : d.msg ≠ Msg.redeclared x := by
  rcases (evalExpr_error_shape vars e i d h).2 with ⟨s, hs⟩ | ⟨n, hs⟩ | ⟨n, hs⟩ | ⟨s, hs⟩ | ⟨s, e2, hs⟩ <;>
    rw [hs] <;> simp

theorem evalCondition_error_not_redecl (vars : VarMap) (c : List Char) (i : ℕ) (d : Diag)
    (x : List Char) (h : evalCondition vars c i = Except.error d) :
    d.msg ≠ Msg.redeclared x := by
  unfold evalCondition at h
  split at h
  · obtain ⟨rfl⟩ := Except.error.inj h
    simp
  · rename_i l op r heq
    split at h
    · rename_i d2 hl
      obtain ⟨rfl⟩ := Except.error.inj h
      exact evalExpr_error_not_redecl vars l i d x hl
    · rename_i lv hl
      split at h
      · rename_i d2 hr
        obtain ⟨rfl⟩ := Except.error.inj h
        exact evalExpr_error_not_redecl vars r i d x hr
      · rename_i rv hr
        split at h
        · exact absurd h (by simp)
        · split at h
          · exact absurd h (by simp)
          · split at h
            · split at h
              · exact absurd h (by simp)
              · obtain ⟨rfl⟩ := Except.error.inj h
                simp
            · split at h
              · split at h
                · exact absurd h (by simp)
                · obtain ⟨rfl⟩ := Except.error.inj h
                  simp
              · obtain ⟨rfl⟩ := Except.error.inj h
                simp

/-- The `Redeclared` diagnostics for `x` among a diagnostics sequence. -/
def redeclErrs (x : List Char) (es : List Diag) : List Diag :=
  es.filter (fun d => decide (d.msg = Msg.redeclared x))

theorem redeclErrs_append (x : List Char) (es1 es2 : List Diag) :
    redeclErrs x (es1 ++ es2) = redeclErrs x es1 ++ redeclErrs x es2 := by
  simp [redeclErrs]

/-- A statement handler preserves the declaration data of `x` when it
neither declares `x` nor records a `Redeclared` diagnostic for `x`:
membership and declared type of `x` in the store are unchanged, and the
`Redeclared x` diagnostics are unchanged. -/
def preservesVar (x : List Char) (st st2 : State) : Prop :=
  (lookupVar st.vars x = none → lookupVar st2.vars x = none) ∧
  (∀ t w, lookupVar st.vars x = some (t, w) → ∃ w2, lookupVar st2.vars x = some (t, w2)) ∧
  redeclErrs x st2.errors = redeclErrs x st.errors

theorem preservesVar_rfl (x : List Char) (st : State) : preservesVar x st st :=
  ⟨fun h => h, fun _ w h => ⟨w, h⟩, rfl⟩

theorem preservesVar_addErr (x : List Char) (st : State) (i : ℕ) (m : Msg)
    (h : m ≠ Msg.redeclared x) : preservesVar x st (addErr st i m) := by
  refine ⟨fun h2 => h2, fun t w h2 => ⟨w, h2⟩, ?_⟩
  simp [addErr, redeclErrs_append, redeclErrs, h]

theorem preservesVar_appendErr (x : List Char) (st : State) (d : Diag)
    (h : d.msg ≠ Msg.redeclared x) :
    preservesVar x st { st with errors := st.errors ++ [d] } := by
  refine ⟨fun h2 => h2, fun t w h2 => ⟨w, h2⟩, ?_⟩
  simp [redeclErrs_append, redeclErrs, h]

theorem preservesVar_setSame (x name : List Char) (st : State) (ty : Ty) (w0 : Option PyVal)
    (w2 : Option PyVal) (hn : lookupVar st.vars name = some (ty, w0)) :
    preservesVar x st { st with vars := setVar st.vars name (ty, w2) } := by
  by_cases hx : x = name
  · subst hx
    refine ⟨fun h0 => ?_, fun t w h0 => ?_, rfl⟩
    · rw [h0] at hn
      cases hn
    · rw [hn] at h0
      obtain ⟨h1, _⟩ := Prod.mk.injEq .. ▸ Option.some.inj h0
      exact ⟨w2, by simp [lookupVar_setVar_self, h1]⟩
  · refine ⟨fun h0 => ?_, fun t w h0 => ⟨w, ?_⟩, rfl⟩
    · rw [lookupVar_setVar_ne st.vars name x _ hx]
      exact h0
    · rw [lookupVar_setVar_ne st.vars name x _ hx]
      exact h0

theorem execAssignCore_preserves (ib : Bool) (st : State) (i : ℕ) (name expr : List Char)
    (st2 : State) (x : List Char) (h : execAssignCore ib st i name expr = some st2) :
    preservesVar x st st2 := by
  match hn : lookupVar st.vars name with
  | none =>
    simp only [execAssignCore, hn, Option.some.injEq] at h
    subst h
    exact preservesVar_addErr x st i _ (by cases ib <;> simp)
  | some (ty, w0) =>
    match hev : evalExpr st.vars expr i with
    | Except.error d =>
      simp only [execAssignCore, hn, hev, Option.some.injEq] at h
      subst h
      exact preservesVar_appendErr x st d (evalExpr_error_not_redecl _ _ _ _ _ hev)
    | Except.ok v =>
      cases ty with
      | integer =>
        match hq : toFloat v with
        | none =>
          simp only [execAssignCore, hn, hev, hq, Option.some.injEq] at h
          subst h
          exact preservesVar_addErr x st i _ (by simp)
        | some q =>
          simp only [execAssignCore, hn, hev, hq, Option.some.injEq] at h
          subst h
          exact preservesVar_setSame x name st Ty.integer w0 _ hn
      | double =>
        match hq : toFloat v with
        | none =>
          simp only [execAssignCore, hn, hev, hq] at h
          cases h
        | some q =>
          simp only [execAssignCore, hn, hev, hq, Option.some.injEq] at h
          subst h
          exact preservesVar_setSame x name st Ty.double w0 _ hn

theorem execOutputCore_preserves (st : State) (i : ℕ) (payload : List Char) (x : List Char) :
    preservesVar x st (execOutputCore st i payload) := by
  unfold execOutputCore
  split
  · exact ⟨fun h => h, fun t w h => ⟨w, h⟩, rfl⟩
  · match hev : evalExpr st.vars payload i with
    | Except.error d =>
      exact preservesVar_appendErr x st d (evalExpr_error_not_redecl _ _ _ _ _ hev)
    | Except.ok v =>
      exact ⟨fun h => h, fun t w h => ⟨w, h⟩, rfl⟩

theorem execIf_preserves (st : State) (i : ℕ) (cond stmt : List Char) (st2 : State)
    (x : List Char) (h : execIf st i cond stmt = some st2) : preservesVar x st st2 := by
  match hc : evalCondition st.vars cond i with
  | Except.error d =>
    simp only [execIf, hc, Option.some.injEq] at h
    subst h
    exact preservesVar_appendErr x st d (evalCondition_error_not_redecl _ _ _ _ _ hc)
  | Except.ok false =>
    simp only [execIf, hc, Option.some.injEq] at h
    subst h
    exact preservesVar_rfl x st
  | Except.ok true =>
    simp only [execIf, hc] at h
    split at h
    · obtain rfl := Option.some.inj h
      exact preservesVar_addErr x st i _ (by simp)
    · split at h
      · exact execAssignCore_preserves true st i _ _ st2 x h
      · split at h
        · obtain rfl := Option.some.inj h
          exact execOutputCore_preserves st i _ x
        · obtain rfl := Option.some.inj h
          exact preservesVar_addErr x st i _ (by simp)

theorem processLine_declOf (st : State) (i : ℕ) (l : List Char) (x : List Char) (t : Ty)
    (h : declMatch (pyStrip l) = some (x, t)) :
    processLine st i l =
      some (if (lookupVar st.vars x).isSome then addErr st i (Msg.redeclared x)
            else { st with vars := setVar st.vars x (t, none) }) := by
  have hne : ¬ pyStrip l = [] := by
    intro he
    rw [he, show declMatch ([] : List Char) = none from by decide] at h
    cases h
  simp only [processLine, if_neg hne, h]

theorem processLine_not_declOf (st : State) (i : ℕ) (l : List Char) (st2 : State)
    (x : List Char) (h : processLine st i l = some st2)
    (hnd : ∀ t, declMatch (pyStrip l) ≠ some (x, t)) : preservesVar x st st2 := by
  by_cases hemp : pyStrip l = []
  · simp only [processLine, hemp, if_true, Option.some.injEq] at h
    subst h
    exact preservesVar_rfl x st
  · match hd : declMatch (pyStrip l) with
    | some (name, ty) =>
      have hne : name ≠ x := by
        intro he
        exact hnd ty (he ▸ hd)
      simp only [processLine, if_neg hemp, hd, Option.some.injEq] at h
      subst h
      split
      · exact preservesVar_addErr x st i _ (by simp [hne])
      · refine ⟨fun h0 => ?_, fun t w h0 => ⟨w, ?_⟩, rfl⟩ <;>
          rw [lookupVar_setVar_ne st.vars name x _ (Ne.symm hne)] <;> exact h0
    | none =>
      simp only [processLine, if_neg hemp, hd] at h
      split at h
      · exact execAssignCore_preserves false st i _ _ st2 x h
      · split at h
        · obtain rfl := Option.some.inj h
          exact execOutputCore_preserves st i _ x
        · split at h
          · exact execIf_preserves st i _ _ st2 x h
          · obtain rfl := Option.some.inj h
            exact preservesVar_addErr x st i _ (by simp)

/-- The declaration lines for `x` in a line list starting at line number
`i`: line number and declared type of each line whose stripped text matches
`RE_DECL` with identifier `x`, in order. -/
def declsIn (x : List Char) : ℕ → List (List Char) → List (ℕ × Ty)
  | _, [] => []
  | i, l :: ls =>
    match declMatch (pyStrip l) with
    | some (n, t) => if n = x then (i, t) :: declsIn x (i + 1) ls else declsIn x (i + 1) ls
    | none => declsIn x (i + 1) ls

theorem declsIn_cons_decl (x : List Char) (i : ℕ) (l : List Char) (ls : List (List Char))
    (t : Ty) (h : declMatch (pyStrip l) = some (x, t)) :
    declsIn x i (l :: ls) = (i, t) :: declsIn x (i + 1) ls := by
  simp [declsIn, h]

theorem declsIn_cons_skip (x : List Char) (i : ℕ) (l : List Char) (ls : List (List Char))
    (h : ∀ t, declMatch (pyStrip l) ≠ some (x, t)) :
    declsIn x i (l :: ls) = declsIn x (i + 1) ls := by
  match hd : declMatch (pyStrip l) with
  | some (n, t) =>
    have hne : n ≠ x := fun he => h t (he ▸ hd)
    conv_lhs => rw [declsIn]
    rw [hd]
    simp [hne]
  | none =>
    conv_lhs => rw [declsIn]
    rw [hd]

/-- Invariant of the `parse_and_run` loop for one identifier `x`: starting
from a store without `x` (resp. with `x` of type `t`), the declaration
lines of `x` determine the final membership, the retained declared type
(the first declaration's), and the `Redeclared x` diagnostics (one per
declaration line after the first, in order, at those lines). -/
theorem runAux_decl (x : List Char) :
    ∀ (ls : List (List Char)) (i : ℕ) (st st2 : State),
      runLinesAux st i ls = some st2 →
      ((lookupVar st.vars x = none →
          (match declsIn x i ls with
           | [] => lookupVar st2.vars x = none ∧ redeclErrs x st2.errors = redeclErrs x st.errors
           | (_, t) :: rest =>
              (∃ w, lookupVar st2.vars x = some (t, w)) ∧
              redeclErrs x st2.errors =
                redeclErrs x st.errors ++
                  rest.map (fun p => (⟨some p.1, Msg.redeclared x⟩ : Diag)))) ∧
       (∀ t w, lookupVar st.vars x = some (t, w) →
          (∃ w2, lookupVar st2.vars x = some (t, w2)) ∧
          redeclErrs x st2.errors =
            redeclErrs x st.errors ++
              (declsIn x i ls).map (fun p => (⟨some p.1, Msg.redeclared x⟩ : Diag)))) := by
  intro ls
  induction ls with
  | nil =>
    intro i st st2 h
    simp only [runLinesAux, Option.some.injEq] at h
    subst h
    exact ⟨fun h0 => ⟨h0, rfl⟩, fun t w h0 => ⟨⟨w, h0⟩, by simp [declsIn]⟩⟩
  | cons l ls ih =>
    intro i st st2 h
    match hp : processLine st i l with
    | none =>
      rw [runLinesAux, hp] at h
      cases h
    | some st1 =>
      rw [runLinesAux, hp] at h
      by_cases hdx : ∃ t, declMatch (pyStrip l) = some (x, t)
      · obtain ⟨t, hd⟩ := hdx
        have hdl := declsIn_cons_decl x i l ls t hd
        have hpl := processLine_declOf st i l x t hd
        rw [hp] at hpl
        have hst1 := Option.some.inj hpl
        constructor
        · intro h0
          rw [hdl]
          have hst1b : st1 = { st with vars := setVar st.vars x (t, none) } := by
            rw [hst1, h0]
            rfl
          have hlk1 : lookupVar st1.vars x = some (t, none) := by
            rw [hst1b]
            exact lookupVar_setVar_self st.vars x (t, none)
          obtain ⟨⟨w2, hw2⟩, herr⟩ := (ih (i + 1) st1 st2 h).2 t none hlk1
          refine ⟨⟨w2, hw2⟩, ?_⟩
          rw [herr, hst1b]
        · intro t0 w h0
          have hst1b : st1 = addErr st i (Msg.redeclared x) := by
            rw [hst1, h0]
            rfl
          have hlk1 : lookupVar st1.vars x = some (t0, w) := by
            rw [hst1b]
            exact h0
          obtain ⟨ex2, herr⟩ := (ih (i + 1) st1 st2 h).2 t0 w hlk1
          refine ⟨ex2, ?_⟩
          rw [hdl, herr, hst1b]
          simp [addErr, redeclErrs_append, redeclErrs]
      · push_neg at hdx
        obtain ⟨p1, p2, p3⟩ := processLine_not_declOf st i l st1 x hp hdx
        have hdl := declsIn_cons_skip x i l ls hdx
        constructor
        · intro h0
          rw [hdl]
          have h1 := (ih (i + 1) st1 st2 h).1 (p1 h0)
          match hdd : declsIn x (i + 1) ls with
          | [] =>
            rw [hdd] at h1
            exact ⟨h1.1, by rw [h1.2, p3]⟩
          | (j, t) :: rest =>
            rw [hdd] at h1
            exact ⟨h1.1, by rw [h1.2, p3]⟩
        · intro t w h0
          obtain ⟨w1, hw1⟩ := p2 t w h0
          obtain ⟨ex2, herr⟩ := (ih (i + 1) st1 st2 h).2 t w1 hw1
          rw [hdl]
          exact ⟨ex2, by rw [herr, p3]⟩

/-- C4 counterexample.  A program with exactly two declaration lines for
`x` whose run crashes (the uncaught `TypeError` of C3) before the second
declaration is processed: the run records no `Redeclared` diagnostic at
all, so the claim's "exactly one Redeclared diagnostic" fails as a
statement about every program. -/
theorem C4_counterexample :
    declsIn "x".data 1 (pySplitlines "x: integer;\ny: double;\ny := ();\nx: integer;".data) =
      [(1, Ty.integer), (4, Ty.integer)] ∧
    runProgram "x: integer;\ny: double;\ny := ();\nx: integer;" = none := by
  constructor <;> decide

/-- C4 (amended).  For every program whose run completes (no crash) and
which contains exactly two declaration statements for the same identifier
`x`, the run records exactly one `Redeclared` diagnostic for `x`, at the
second declaration's line, and `x` retains the type of its first
declaration to the end of the run. -/
theorem C4_thm (ls : List (List Char)) (x : List Char) (st : State) (i1 i2 : ℕ) (t1 t2 : Ty)
    (hrun : runLinesAux initState 1 ls = some st)
    (hdecl : declsIn x 1 ls = [(i1, t1), (i2, t2)]) :
    redeclErrs x st.errors = [⟨some i2, Msg.redeclared x⟩] ∧
    ∃ w, lookupVar st.vars x = some (t1, w) := by
  have h := (runAux_decl x ls 1 initState st hrun).1 rfl
  rw [hdecl] at h
  obtain ⟨hex, herr⟩ := h
  refine ⟨?_, hex⟩
  rw [herr]
  rfl

/-- C4 witness: `x: integer;` / `x: double;` / `y: integer;` records the
one `Redeclared` diagnostic at line 2 and keeps `x` an Integer. -/
theorem C4_witness :
    redeclErrs "x".data
        (⟨[("x".data, Ty.integer, none), ("y".data, Ty.integer, none)],
          [⟨some 2, Msg.redeclared "x".data⟩], []⟩ : State).errors =
      [⟨some 2, Msg.redeclared "x".data⟩] ∧
    ∃ w, lookupVar
        (⟨[("x".data, Ty.integer, none), ("y".data, Ty.integer, none)],
          [⟨some 2, Msg.redeclared "x".data⟩], []⟩ : State).vars "x".data =
      some (Ty.integer, w) :=
  C4_thm (pySplitlines "x: integer;\nx: double;\ny: integer;".data) "x".data
    ⟨[("x".data, Ty.integer, none), ("y".data, Ty.integer, none)],
      [⟨some 2, Msg.redeclared "x".data⟩], []⟩ 1 2 Ty.integer Ty.double
    (by decide) (by decide)

theorem condOpAt_op (s : List Char) (op rest : List Char) (h : condOpAt s = some (op, rest)) :
    op = "==".data ∨ op = "!=".data ∨ op = ">".data ∨ op = "<".data := by
  unfold condOpAt at h
  split at h
  · split at h
    · exact Or.inl (Prod.mk.inj (Option.some.inj h)).1.symm
    · cases h
  · split at h
    · exact Or.inr (Or.inl (Prod.mk.inj (Option.some.inj h)).1.symm)
    · cases h
  · split at h
    · exact Or.inr (Or.inr (Or.inl (Prod.mk.inj (Option.some.inj h)).1.symm))
    · cases h
  · split at h
    · exact Or.inr (Or.inr (Or.inr (Prod.mk.inj (Option.some.inj h)).1.symm))
    · cases h
  · cases h

theorem condScan_op (s : List Char) :
    ∀ (left l op r : List Char), condScan left s = some (l, op, r) →
      op = "==".data ∨ op = "!=".data ∨ op = ">".data ∨ op = "<".data := by
  induction s with
  | nil => intro left l op r h; cases h
  | cons c cs ih =>
    intro left l op r h
    unfold condScan at h
    split at h
    · rename_i op2 rest2 heq
      simp only [Option.some.injEq, Prod.mk.injEq] at h
      obtain ⟨-, h2, -⟩ := h
      subst h2
      split at heq
      · exact condOpAt_op _ _ _ heq
      · cases heq
    · exact ih _ _ _ _ h

theorem condMatch_op (c l op r : List Char) (h : condMatch c = some (l, op, r)) :
    op = "==".data ∨ op = "!=".data ∨ op = ">".data ∨ op = "<".data := by
  simp only [condMatch] at h
  split at h
  · rename_i l0 op0 r0 heq
    simp only [Option.some.injEq, Prod.mk.injEq] at h
    obtain ⟨-, h2, -⟩ := h
    subst h2
    exact condScan_op _ _ _ _ _ heq
  · split at h
    · split at h
      · rename_i op0 rest0 hopat
        simp only [Option.some.injEq, Prod.mk.injEq] at h
        obtain ⟨-, h2, -⟩ := h
        subst h2
        exact condOpAt_op _ _ _ hopat
      · cases h
    · cases h

theorem exceptMap_ok {e a b : Type} (f : a → b) (x : Except e a) (y : b)
    (h : Except.map f x = Except.ok y) : ∃ z, x = Except.ok z ∧ y = f z := by
  cases x with
  | error w => simp [Except.map] at h
  | ok z => exact ⟨z, rfl, (Except.ok.inj h).symm⟩

/-- Token lists produced from `)`-free text: no closing parenthesis and no
tuple literal. -/
def goodToks (ts : List Tok) : Prop :=
  Tok.rpar ∉ ts ∧ ∀ v, Tok.num v ∈ ts → v ≠ PyVal.tuple

theorem goodToks_tail (t : Tok) (ts : List Tok) (h : goodToks (t :: ts)) : goodToks ts :=
  ⟨fun hm => h.1 (List.mem_cons_of_mem t hm), fun v hm => h.2 v (List.mem_cons_of_mem t hm)⟩

/-- Syntax trees that contain no tuple literal and no call: what parsing
`)`-free token lists can produce. -/
def noTupAst : Ast → Prop
  | Ast.lit v => v ≠ PyVal.tuple
  | Ast.tup => False
  | Ast.pos e => noTupAst e
  | Ast.neg e => noTupAst e
  | Ast.add a b => noTupAst a ∧ noTupAst b
  | Ast.sub a b => noTupAst a ∧ noTupAst b
  | Ast.call0 _ => False
  | Ast.call1 _ _ => False

theorem lexNum_shape (s : List Char) (t : Tok) (rest : List Char)
    (h : lexNum s = Except.ok (t, rest)) :
    (∃ v, t = Tok.num v ∧ v ≠ PyVal.tuple) ∧ rest ⊆ s := by
  simp only [lexNum] at h
  split at h
  · rename_i r2 heq
    split at h
    · cases h
    · obtain ⟨ht, hrest⟩ := Prod.mk.inj (Except.ok.inj h)
      refine ⟨⟨_, ht.symm, by simp⟩, ?_⟩
      rw [← hrest]
      intro c hc
      have h1 : c ∈ r2 := List.dropWhile_subset _ hc
      have h2 : c ∈ s.dropWhile Char.isDigit := by
        rw [heq]
        exact List.mem_cons_of_mem _ h1
      exact List.dropWhile_subset _ h2
  · split at h
    · cases h
    · split at h
      · cases h
      · obtain ⟨ht, hrest⟩ := Prod.mk.inj (Except.ok.inj h)
        refine ⟨⟨_, ht.symm, by simp⟩, ?_⟩
        rw [← hrest]
        exact List.dropWhile_subset _

theorem tokenize_good : ∀ (fuel : ℕ) (s : List Char) (ts : List Tok),
    ')' ∉ s → tokenize fuel s = Except.ok ts → goodToks ts := by
  intro fuel
  induction fuel with
  | zero => intro s ts _ h; cases h
  | succ f ih =>
    intro s ts hs h
    match s with
    | [] =>
      obtain rfl := Except.ok.inj h
      exact ⟨by simp, by simp⟩
    | c :: cs =>
      have hc : c ≠ ')' := fun he => hs (he ▸ List.mem_cons_self c cs)
      have hcs : ')' ∉ cs := fun hm => hs (List.mem_cons_of_mem c hm)
      simp only [tokenize] at h
      by_cases h1 : pySpace c
      · rw [if_pos h1] at h
        exact ih cs ts hcs h
      · rw [if_neg h1] at h
        by_cases h2 : c = '('
        · rw [if_pos h2] at h
          obtain ⟨ts2, hts2, rfl⟩ := exceptMap_ok _ _ _ h
          obtain ⟨hg1, hg2⟩ := ih cs ts2 hcs hts2
          exact ⟨by simp [hg1], fun v hm => hg2 v (by
            rcases List.mem_cons.mp hm with hv | hv
            · cases hv
            · exact hv)⟩
        · rw [if_neg h2] at h
          by_cases h3 : c = ')'
          · exact absurd h3 hc
          · rw [if_neg h3] at h
            by_cases h4 : c = '+'
            · rw [if_pos h4] at h
              obtain ⟨ts2, hts2, rfl⟩ := exceptMap_ok _ _ _ h
              obtain ⟨hg1, hg2⟩ := ih cs ts2 hcs hts2
              exact ⟨by simp [hg1], fun v hm => hg2 v (by
                rcases List.mem_cons.mp hm with hv | hv
                · cases hv
                · exact hv)⟩
            · rw [if_neg h4] at h
              by_cases h5 : c = '-'
              · rw [if_pos h5] at h
                obtain ⟨ts2, hts2, rfl⟩ := exceptMap_ok _ _ _ h
                obtain ⟨hg1, hg2⟩ := ih cs ts2 hcs hts2
                exact ⟨by simp [hg1], fun v hm => hg2 v (by
                  rcases List.mem_cons.mp hm with hv | hv
                  · cases hv
                  · exact hv)⟩
              · rw [if_neg h5] at h
                by_cases h6 : c.isDigit || c = '.'
                · rw [if_pos h6] at h
                  match hlex : lexNum (c :: cs) with
                  | Except.error e => rw [hlex] at h; cases h
                  | Except.ok (t, rest) =>
                    rw [hlex] at h
                    obtain ⟨ts2, hts2, rfl⟩ := exceptMap_ok _ _ _ h
                    obtain ⟨⟨v, rfl, hv⟩, hsub⟩ := lexNum_shape _ _ _ hlex
                    have hrest : ')' ∉ rest := fun hm => hs (hsub hm)
                    obtain ⟨hg1, hg2⟩ := ih rest ts2 hrest hts2
                    refine ⟨by simp [hg1], fun w hm => ?_⟩
                    rcases List.mem_cons.mp hm with hw | hw
                    · obtain rfl := Tok.num.inj hw.symm
                      exact hv
                    · exact hg2 w hw
                · rw [if_neg h6] at h
                  cases h

theorem parseAtom_paren_aux (f : ℕ) (ts2 : List Tok) (a : Ast) (r : List Tok)
    (hg : goodToks ts2)
    (ihE : ∀ ts a r, goodToks ts → parseE f ts = Except.ok (a, r) → noTupAst a ∧ goodToks r)
    (h : (match parseE f ts2 with
          | Except.error e => Except.error e
          | Except.ok (e, r2) =>
            match r2 with
            | Tok.rpar :: r3 => Except.ok (e, r3)
            | _ => Except.error PyErr.syn) = Except.ok (a, r)) : False := by
  match he : parseE f ts2 with
  | Except.error e => rw [he] at h; cases h
  | Except.ok (e, r2) =>
    rw [he] at h
    have hr2 := (ihE ts2 e r2 hg he).2
    match r2, h with
    | Tok.rpar :: r3, h => exact hr2.1 (List.mem_cons_self _ _)
    | [], h => cases h
    | Tok.lpar :: r3, h => cases h
    | Tok.plus :: r3, h => cases h
    | Tok.minus :: r3, h => cases h
    | Tok.num v :: r3, h => cases h

theorem parseTrail_paren_aux (f : ℕ) (acc : Ast) (ts2 : List Tok) (a : Ast) (r : List Tok)
    (hg : goodToks ts2)
    (ihE : ∀ ts a r, goodToks ts → parseE f ts = Except.ok (a, r) → noTupAst a ∧ goodToks r)
    (h : (match parseE f ts2 with
          | Except.error e => Except.error e
          | Except.ok (e, r2) =>
            match r2 with
            | Tok.rpar :: r3 => parseTrail f (Ast.call1 acc e) r3
            | _ => Except.error PyErr.syn) = Except.ok (a, r)) : False := by
  match he : parseE f ts2 with
  | Except.error e => rw [he] at h; cases h
  | Except.ok (e, r2) =>
    rw [he] at h
    have hr2 := (ihE ts2 e r2 hg he).2
    match r2, h with
    | Tok.rpar :: r3, h => exact hr2.1 (List.mem_cons_self _ _)
    | [], h => cases h
    | Tok.lpar :: r3, h => cases h
    | Tok.plus :: r3, h => cases h
    | Tok.minus :: r3, h => cases h
    | Tok.num v :: r3, h => cases h

/-- Parsing a `)`-free, tuple-free token list can only build syntax trees
without tuple literals or calls (every `(`-consuming branch needs a later
`)` token and therefore fails). -/
theorem parse_good : ∀ fuel : ℕ,
    (∀ ts a r, goodToks ts → parseE fuel ts = Except.ok (a, r) → noTupAst a ∧ goodToks r) ∧
    (∀ acc ts a r, goodToks ts → noTupAst acc → parseBin fuel acc ts = Except.ok (a, r) →
      noTupAst a ∧ goodToks r) ∧
    (∀ ts a r, goodToks ts → parseU fuel ts = Except.ok (a, r) → noTupAst a ∧ goodToks r) ∧
    (∀ ts a r, goodToks ts → parseAtomT fuel ts = Except.ok (a, r) → noTupAst a ∧ goodToks r) ∧
    (∀ ts a r, goodToks ts → parseAtom fuel ts = Except.ok (a, r) → noTupAst a ∧ goodToks r) ∧
    (∀ acc ts a r, goodToks ts → noTupAst acc → parseTrail fuel acc ts = Except.ok (a, r) →
      noTupAst a ∧ goodToks r) := by
  intro fuel
  induction fuel with
  | zero =>
    refine ⟨?_, ?_, ?_, ?_, ?_, ?_⟩ <;> intros <;> rename_i h <;> cases h
  | succ f ih =>
    obtain ⟨ihE, ihB, ihU, ihAT, ihA, ihT⟩ := ih
    refine ⟨?_, ?_, ?_, ?_, ?_, ?_⟩
    · -- parseE
      intro ts a r hg h
      simp only [parseE] at h
      match hu : parseU f ts with
      | Except.error e => rw [hu] at h; cases h
      | Except.ok (a0, r0) =>
        rw [hu] at h
        obtain ⟨ha0, hr0⟩ := ihU ts a0 r0 hg hu
        exact ihB a0 r0 a r hr0 ha0 h
    · -- parseBin
      intro acc ts a r hg hacc h
      match ts, hg, h with
      | Tok.plus :: ts2, hg, h =>
        simp only [parseBin] at h
        match hu : parseU f ts2 with
        | Except.error e => rw [hu] at h; cases h
        | Except.ok (b, r2) =>
          rw [hu] at h
          obtain ⟨hb, hr2⟩ := ihU ts2 b r2 (goodToks_tail _ _ hg) hu
          exact ihB (Ast.add acc b) r2 a r hr2 ⟨hacc, hb⟩ h
      | Tok.minus :: ts2, hg, h =>
        simp only [parseBin] at h
        match hu : parseU f ts2 with
        | Except.error e => rw [hu] at h; cases h
        | Except.ok (b, r2) =>
          rw [hu] at h
          obtain ⟨hb, hr2⟩ := ihU ts2 b r2 (goodToks_tail _ _ hg) hu
          exact ihB (Ast.sub acc b) r2 a r hr2 ⟨hacc, hb⟩ h
      | [], hg, h =>
        simp only [parseBin] at h
        obtain ⟨rfl, rfl⟩ := Prod.mk.inj (Except.ok.inj h)
        exact ⟨hacc, hg⟩
      | Tok.lpar :: ts2, hg, h =>
        simp only [parseBin] at h
        obtain ⟨rfl, rfl⟩ := Prod.mk.inj (Except.ok.inj h)
        exact ⟨hacc, hg⟩
      | Tok.rpar :: ts2, hg, h =>
        simp only [parseBin] at h
        obtain ⟨rfl, rfl⟩ := Prod.mk.inj (Except.ok.inj h)
        exact ⟨hacc, hg⟩
      | Tok.num v :: ts2, hg, h =>
        simp only [parseBin] at h
        obtain ⟨rfl, rfl⟩ := Prod.mk.inj (Except.ok.inj h)
        exact ⟨hacc, hg⟩
    · -- parseU
      intro ts a r hg h
      match ts, hg, h with
      | Tok.plus :: ts2, hg, h =>
        simp only [parseU] at h
        match hu : parseU f ts2 with
        | Except.error e => rw [hu] at h; cases h
        | Except.ok (a0, r0) =>
          rw [hu] at h
          simp only [Except.map] at h
          obtain ⟨rfl, rfl⟩ := Prod.mk.inj (Except.ok.inj h)
          exact ihU ts2 a0 r0 (goodToks_tail _ _ hg) hu
      | Tok.minus :: ts2, hg, h =>
        simp only [parseU] at h
        match hu : parseU f ts2 with
        | Except.error e => rw [hu] at h; cases h
        | Except.ok (a0, r0) =>
          rw [hu] at h
          simp only [Except.map] at h
          obtain ⟨rfl, rfl⟩ := Prod.mk.inj (Except.ok.inj h)
          exact ihU ts2 a0 r0 (goodToks_tail _ _ hg) hu
      | [], hg, h =>
        simp only [parseU] at h
        exact ihAT [] a r hg h
      | Tok.lpar :: ts2, hg, h =>
        simp only [parseU] at h
        exact ihAT _ a r hg h
      | Tok.rpar :: ts2, hg, h =>
        simp only [parseU] at h
        exact ihAT _ a r hg h
      | Tok.num v :: ts2, hg, h =>
        simp only [parseU] at h
        exact ihAT _ a r hg h
    · -- parseAtomT
      intro ts a r hg h
      simp only [parseAtomT] at h
      match ha : parseAtom f ts with
      | Except.error e => rw [ha] at h; cases h
      | Except.ok (a0, r0) =>
        rw [ha] at h
        obtain ⟨ha0, hr0⟩ := ihA ts a0 r0 hg ha
        exact ihT a0 r0 a r hr0 ha0 h
    · -- parseAtom
      intro ts a r hg h
      match ts, hg, h with
      | Tok.num v :: ts2, hg, h =>
        simp only [parseAtom] at h
        obtain ⟨rfl, rfl⟩ := Prod.mk.inj (Except.ok.inj h)
        exact ⟨hg.2 v (List.mem_cons_self _ _), goodToks_tail _ _ hg⟩
      | Tok.lpar :: Tok.rpar :: ts2, hg, h =>
        exact absurd (List.mem_cons_of_mem _ (List.mem_cons_self _ _)) hg.1
      | Tok.lpar :: Tok.lpar :: ts2, hg, h =>
        simp only [parseAtom] at h
        exact (parseAtom_paren_aux f _ a r (goodToks_tail _ _ hg) ihE h).elim
      | Tok.lpar :: Tok.plus :: ts2, hg, h =>
        simp only [parseAtom] at h
        exact (parseAtom_paren_aux f _ a r (goodToks_tail _ _ hg) ihE h).elim
      | Tok.lpar :: Tok.minus :: ts2, hg, h =>
        simp only [parseAtom] at h
        exact (parseAtom_paren_aux f _ a r (goodToks_tail _ _ hg) ihE h).elim
      | Tok.lpar :: Tok.num v :: ts2, hg, h =>
        simp only [parseAtom] at h
        exact (parseAtom_paren_aux f _ a r (goodToks_tail _ _ hg) ihE h).elim
      | [Tok.lpar], hg, h =>
        simp only [parseAtom] at h
        exact (parseAtom_paren_aux f _ a r (goodToks_tail _ _ hg) ihE h).elim
      | [], hg, h =>
        simp only [parseAtom] at h
        exact Except.noConfusion h
      | Tok.rpar :: ts2, hg, h =>
        simp only [parseAtom] at h
        exact Except.noConfusion h
      | Tok.plus :: ts2, hg, h =>
        simp only [parseAtom] at h
        exact Except.noConfusion h
      | Tok.minus :: ts2, hg, h =>
        simp only [parseAtom] at h
        exact Except.noConfusion h
    · -- parseTrail
      intro acc ts a r hg hacc h
      match ts, hg, h with
      | Tok.lpar :: Tok.rpar :: ts2, hg, h =>
        exact absurd (List.mem_cons_of_mem _ (List.mem_cons_self _ _)) hg.1
      | Tok.lpar :: Tok.lpar :: ts2, hg, h =>
        simp only [parseTrail] at h
        exact (parseTrail_paren_aux f acc _ a r (goodToks_tail _ _ hg) ihE h).elim
      | Tok.lpar :: Tok.plus :: ts2, hg, h =>
        simp only [parseTrail] at h
        exact (parseTrail_paren_aux f acc _ a r (goodToks_tail _ _ hg) ihE h).elim
      | Tok.lpar :: Tok.minus :: ts2, hg, h =>
        simp only [parseTrail] at h
        exact (parseTrail_paren_aux f acc _ a r (goodToks_tail _ _ hg) ihE h).elim
      | Tok.lpar :: Tok.num v :: ts2, hg, h =>
        simp only [parseTrail] at h
        exact (parseTrail_paren_aux f acc _ a r (goodToks_tail _ _ hg) ihE h).elim
      | [Tok.lpar], hg, h =>
        simp only [parseTrail] at h
        exact (parseTrail_paren_aux f acc _ a r (goodToks_tail _ _ hg) ihE h).elim
      | [], hg, h =>
        simp only [parseTrail] at h
        obtain ⟨rfl, rfl⟩ := Prod.mk.inj (Except.ok.inj h)
        exact ⟨hacc, hg⟩
      | Tok.rpar :: ts2, hg, h =>
        simp only [parseTrail] at h
        obtain ⟨rfl, rfl⟩ := Prod.mk.inj (Except.ok.inj h)
        exact ⟨hacc, hg⟩
      | Tok.plus :: ts2, hg, h =>
        simp only [parseTrail] at h
        obtain ⟨rfl, rfl⟩ := Prod.mk.inj (Except.ok.inj h)
        exact ⟨hacc, hg⟩
      | Tok.minus :: ts2, hg, h =>
        simp only [parseTrail] at h
        obtain ⟨rfl, rfl⟩ := Prod.mk.inj (Except.ok.inj h)
        exact ⟨hacc, hg⟩
      | Tok.num v :: ts2, hg, h =>
        simp only [parseTrail] at h
        obtain ⟨rfl, rfl⟩ := Prod.mk.inj (Except.ok.inj h)
        exact ⟨hacc, hg⟩

theorem pyAdd_noTup (va vb v : PyVal) (ha : va ≠ PyVal.tuple) (hb : vb ≠ PyVal.tuple)
    (h : pyAdd va vb = Except.ok v) : v ≠ PyVal.tuple := by
  cases va <;> cases vb <;> simp_all [pyAdd] <;> simp [← h]

theorem pySub_noTup (va vb v : PyVal) (ha : va ≠ PyVal.tuple) (hb : vb ≠ PyVal.tuple)
    (h : pySub va vb = Except.ok v) : v ≠ PyVal.tuple := by
  cases va <;> cases vb <;> simp_all [pySub] <;> simp [← h]

theorem evalAst_noTup : ∀ (a : Ast) (v : PyVal), noTupAst a → evalAst a = Except.ok v →
    v ≠ PyVal.tuple := by
  intro a
  induction a with
  | lit w =>
    intro v hn h
    simp only [evalAst] at h
    obtain rfl := Except.ok.inj h
    exact hn
  | tup => intro v hn _; exact hn.elim
  | pos e ih =>
    intro v hn h
    simp only [evalAst] at h
    match he : evalAst e with
    | Except.error er => rw [he] at h; cases h
    | Except.ok (PyVal.int n) =>
      rw [he] at h
      obtain rfl := Except.ok.inj h
      simp
    | Except.ok (PyVal.float q) =>
      rw [he] at h
      obtain rfl := Except.ok.inj h
      simp
    | Except.ok PyVal.tuple =>
      rw [he] at h
      cases h
  | neg e ih =>
    intro v hn h
    simp only [evalAst] at h
    match he : evalAst e with
    | Except.error er => rw [he] at h; cases h
    | Except.ok (PyVal.int n) =>
      rw [he] at h
      obtain rfl := Except.ok.inj h
      simp
    | Except.ok (PyVal.float q) =>
      rw [he] at h
      obtain rfl := Except.ok.inj h
      simp
    | Except.ok PyVal.tuple =>
      rw [he] at h
      cases h
  | add a b iha ihb =>
    intro v hn h
    simp only [evalAst] at h
    match ha : evalAst a with
    | Except.error er => rw [ha] at h; cases h
    | Except.ok va =>
      rw [ha] at h
      match hb : evalAst b with
      | Except.error er => rw [hb] at h; cases h
      | Except.ok vb =>
        rw [hb] at h
        exact pyAdd_noTup va vb v (iha va hn.1 ha) (ihb vb hn.2 hb) h
  | sub a b iha ihb =>
    intro v hn h
    simp only [evalAst] at h
    match ha : evalAst a with
    | Except.error er => rw [ha] at h; cases h
    | Except.ok va =>
      rw [ha] at h
      match hb : evalAst b with
      | Except.error er => rw [hb] at h; cases h
      | Except.ok vb =>
        rw [hb] at h
        exact pySub_noTup va vb v (iha va hn.1 ha) (ihb vb hn.2 hb) h
  | call0 f ih => intro v hn _; exact hn.elim
  | call1 f e ihf ihe => intro v hn _; exact hn.elim

/-- Python evaluation of a `)`-free sanitised text never yields a tuple. -/
theorem pyEval_noTup (s : List Char) (v : PyVal) (hs : ')' ∉ s)
    (h : pyEval s = Except.ok v) : v ≠ PyVal.tuple := by
  unfold pyEval at h
  match ht : tokenize (s.length + 1) s with
  | Except.error e =>
    simp only [ht] at h
    exact Except.noConfusion h
  | Except.ok ts =>
    simp only [ht] at h
    have hg := tokenize_good _ s ts hs ht
    match hp : parseE (8 * ts.length + 16) ts with
    | Except.error e =>
      simp only [hp] at h
      exact Except.noConfusion h
    | Except.ok (a, rest) =>
      simp only [hp] at h
      have hn := ((parse_good (8 * ts.length + 16)).1 ts a rest hg hp).1
      match rest, h with
      | [], h => exact evalAst_noTup a v hn h
      | t :: ts2, h => cases h

theorem padDigits_all_digit (k r : ℕ) : ∀ c ∈ padDigits k r, c.isDigit = true := by
  intro c hc
  unfold padDigits at hc
  rcases List.mem_append.mp hc with hc | hc
  · rw [List.eq_of_mem_replicate hc]
    decide
  · exact natDigits_all_digit _ _ hc

theorem floatRepr_chars (q : ℚ) : ∀ c ∈ floatRepr q, c.isDigit = true ∨ c = '-' ∨ c = '.' := by
  intro c hc
  by_cases hq : q < 0
  · simp only [floatRepr, if_pos hq] at hc
    split at hc
    · rcases List.mem_append.mp hc with hc | hc
      · rcases List.mem_append.mp hc with hc | hc
        · simp only [List.mem_singleton] at hc
          exact Or.inr (Or.inl hc)
        · exact Or.inl (natDigits_all_digit _ _ hc)
      · rcases List.mem_cons.mp hc with hc | hc
        · exact Or.inr (Or.inr hc)
        · simp only [List.mem_singleton] at hc
          exact Or.inl (by rw [hc]; decide)
    · rcases List.mem_append.mp hc with hc | hc
      · rcases List.mem_append.mp hc with hc | hc
        · simp only [List.mem_singleton] at hc
          exact Or.inr (Or.inl hc)
        · exact Or.inl (natDigits_all_digit _ _ hc)
      · rcases List.mem_cons.mp hc with hc | hc
        · exact Or.inr (Or.inr hc)
        · exact Or.inl (padDigits_all_digit _ _ _ hc)
  · simp only [floatRepr, if_neg hq] at hc
    split at hc
    · rcases List.mem_append.mp hc with hc | hc
      · rcases List.mem_append.mp hc with hc | hc
        · simp at hc
        · exact Or.inl (natDigits_all_digit _ _ hc)
      · rcases List.mem_cons.mp hc with hc | hc
        · exact Or.inr (Or.inr hc)
        · simp only [List.mem_singleton] at hc
          exact Or.inl (by rw [hc]; decide)
    · rcases List.mem_append.mp hc with hc | hc
      · rcases List.mem_append.mp hc with hc | hc
        · simp at hc
        · exact Or.inl (natDigits_all_digit _ _ hc)
      · rcases List.mem_cons.mp hc with hc | hc
        · exact Or.inr (Or.inr hc)
        · exact Or.inl (padDigits_all_digit _ _ _ hc)

theorem strOfVal_no_rpar (v : PyVal) (h : v ≠ PyVal.tuple) : ')' ∉ strOfVal v := by
  intro hc
  cases v with
  | int n =>
    simp only [strOfVal] at hc
    unfold intDigits at hc
    split at hc
    · rcases List.mem_cons.mp hc with h1 | h1
      · exact absurd h1 (by decide)
      · exact absurd (natDigits_all_digit _ _ h1) (by decide)
    · exact absurd (natDigits_all_digit _ _ hc) (by decide)
  | float q =>
    simp only [strOfVal] at hc
    rcases floatRepr_chars q _ hc with h1 | h1 | h1
    · exact absurd h1 (by decide)
    · exact absurd h1 (by decide)
    · exact absurd h1 (by decide)
  | tuple => exact h rfl

/-- A store in which every set value is a number (as in every reachable
interpreter state). -/
def varsNoTuple (vs : VarMap) : Prop :=
  ∀ n t v, lookupVar vs n = some (t, some v) → v ≠ PyVal.tuple

theorem substituteF_no_rpar (vars : VarMap) (hv : varsNoTuple vars) :
    ∀ fuel (s t : List Char), ')' ∉ s → substituteF vars fuel s = Except.ok t → ')' ∉ t := by
  intro fuel
  induction fuel with
  | zero =>
    intro s t _ h
    obtain rfl := Except.ok.inj h
    simp
  | succ f ih =>
    intro s t hs h
    match s with
    | [] =>
      simp only [substituteF] at h
      obtain rfl := Except.ok.inj h
      simp
    | c :: cs =>
      have hcs : ')' ∉ cs := fun hm => hs (List.mem_cons_of_mem c hm)
      have hrest : ')' ∉ cs.dropWhile isWordChar := fun hm => hcs (List.dropWhile_subset _ hm)
      simp only [substituteF] at h
      by_cases hw : isWordChar c
      · rw [if_pos hw] at h
        by_cases ha : c.isAlpha
        · rw [if_pos ha] at h
          match hlk : lookupVar vars (c :: cs.takeWhile isWordChar) with
          | none => rw [hlk] at h; cases h
          | some (ty, none) => rw [hlk] at h; cases h
          | some (ty, some v) =>
            rw [hlk] at h
            obtain ⟨t2, h2, rfl⟩ := exceptMap_ok _ _ _ h
            intro hm
            rcases List.mem_append.mp hm with hm | hm
            · exact strOfVal_no_rpar v (hv _ _ _ hlk) hm
            · exact ih _ t2 hrest h2 hm
        · rw [if_neg ha] at h
          obtain ⟨t2, h2, rfl⟩ := exceptMap_ok _ _ _ h
          intro hm
          rcases List.mem_append.mp hm with hm | hm
          · rcases List.mem_cons.mp hm with h1 | h1
            · exact hs (h1 ▸ List.mem_cons_self c cs)
            · exact hcs (List.takeWhile_subset _ h1)
          · exact ih _ t2 hrest h2 hm
      · rw [if_neg hw] at h
        obtain ⟨t2, h2, rfl⟩ := exceptMap_ok _ _ _ h
        intro hm
        rcases List.mem_cons.mp hm with h1 | h1
        · exact hs (h1 ▸ List.mem_cons_self c cs)
        · exact ih cs t2 hcs h2 h1

/-- Expression evaluation over a tuple-free store on `)`-free text never
yields a tuple. -/
theorem evalExpr_noTup (vars : VarMap) (expr : List Char) (i : ℕ) (v : PyVal)
    (hv : varsNoTuple vars) (hr : ')' ∉ expr) (h : evalExpr vars expr i = Except.ok v) :
    v ≠ PyVal.tuple := by
  unfold evalExpr at h
  split at h
  · cases h
  · split at h
    · cases h
    · cases h
    · rename_i sub hsub
      split at h
      · cases h
      · split at h
        · cases h
        · rename_i v0 hpe
          obtain rfl := Except.ok.inj h
          exact pyEval_noTup sub _ (substituteF_no_rpar vars hv _ expr sub hr hsub) hpe

theorem pyStrip_subset (s : List Char) : ∀ c ∈ pyStrip s, c ∈ s := by
  intro c hc
  unfold pyStrip pyRStrip pyLStrip at hc
  have h1 := List.mem_reverse.mp hc
  have h2 := List.dropWhile_subset _ h1
  have h3 := List.mem_reverse.mp h2
  exact List.dropWhile_subset _ h3

theorem condOpAt_rest (s op rest : List Char) (h : condOpAt s = some (op, rest)) :
    ∀ c ∈ rest, c ∈ s := by
  unfold condOpAt at h
  split at h
  · split at h
    · obtain ⟨-, rfl⟩ := Prod.mk.inj (Option.some.inj h)
      intro c hc
      simp [List.mem_cons, hc]
    · cases h
  · split at h
    · obtain ⟨-, rfl⟩ := Prod.mk.inj (Option.some.inj h)
      intro c hc
      simp [List.mem_cons, hc]
    · cases h
  · split at h
    · obtain ⟨-, rfl⟩ := Prod.mk.inj (Option.some.inj h)
      intro c hc
      simp [List.mem_cons, hc]
    · cases h
  · split at h
    · obtain ⟨-, rfl⟩ := Prod.mk.inj (Option.some.inj h)
      intro c hc
      simp [List.mem_cons, hc]
    · cases h
  · cases h

theorem condScan_chars : ∀ (s left l op r : List Char), condScan left s = some (l, op, r) →
    (∀ c ∈ l, c ∈ left ∨ c ∈ s) ∧ (∀ c ∈ r, c ∈ s) := by
  intro s
  induction s with
  | nil => intro left l op r h; cases h
  | cons c cs ih =>
    intro left l op r h
    unfold condScan at h
    match hop : (if left ≠ [] then condOpAt (c :: cs) else none) with
    | some (op0, rest0) =>
      rw [hop] at h
      simp only [Option.some.injEq, Prod.mk.injEq] at h
      obtain ⟨h1, -, h3⟩ := h
      subst h1
      subst h3
      have hol : condOpAt (c :: cs) = some (op0, rest0) := by
        by_cases hl : left ≠ []
        · rw [if_pos hl] at hop
          exact hop
        · rw [if_neg hl] at hop
          cases hop
      exact ⟨fun c2 hc2 => Or.inl hc2, condOpAt_rest _ _ _ hol⟩
    | none =>
      rw [hop] at h
      obtain ⟨h1, h2⟩ := ih (left ++ [c]) l op r h
      refine ⟨fun c2 hc2 => ?_, fun c2 hc2 => List.mem_cons_of_mem c (h2 c2 hc2)⟩
      rcases h1 c2 hc2 with hm | hm
      · rcases List.mem_append.mp hm with hm | hm
        · exact Or.inl hm
        · simp only [List.mem_singleton] at hm
          exact Or.inr (hm ▸ List.mem_cons_self c cs)
      · exact Or.inr (List.mem_cons_of_mem c hm)

theorem condMatch_no_rpar (cond l op r : List Char) (h : condMatch cond = some (l, op, r))
    (hc : ')' ∉ cond) : ')' ∉ l ∧ ')' ∉ r := by
  have hbody : ∀ c ∈ cond.dropWhile pySpace, c ∈ cond := fun c h2 => List.dropWhile_subset _ h2
  simp only [condMatch] at h
  split at h
  · rename_i l0 op0 r0 heq
    simp only [Option.some.injEq, Prod.mk.injEq] at h
    obtain ⟨hl, -, hr⟩ := h
    obtain ⟨h1, h2⟩ := condScan_chars _ [] l0 op0 r0 heq
    constructor
    · rw [← hl]
      intro hm
      rcases h1 _ (pyStrip_subset l0 _ hm) with hm2 | hm2
      · simp at hm2
      · exact hc (hbody _ hm2)
    · rw [← hr]
      intro hm
      exact hc (hbody _ (h2 _ (pyStrip_subset r0 _ hm)))
  · split at h
    · split at h
      · rename_i op0 rest0 hopat
        simp only [Option.some.injEq, Prod.mk.injEq] at h
        obtain ⟨hl, -, hr⟩ := h
        constructor
        · rw [← hl]
          simp
        · rw [← hr]
          intro hm
          exact hc (hbody _ (condOpAt_rest _ _ _ hopat _ (pyStrip_subset rest0 _ hm)))
      · cases h
    · cases h

theorem ifMatch_cond_no_rpar (l cond stmt : List Char) (h : ifMatch l = some (cond, stmt)) :
    ')' ∉ cond := by
  simp only [ifMatch] at h
  split at h
  · cases h
  · split at h
    · split at h
      · split at h
        · simp only [Option.some.injEq, Prod.mk.injEq] at h
          obtain ⟨hcond, -⟩ := h
          rw [← hcond]
          intro hm
          have h2 := List.mem_takeWhile_imp (pyStrip_subset _ _ hm)
          simp at h2
        · cases h
      · cases h
    · cases h

theorem pyGt_ok (a b : PyVal) (ha : a ≠ PyVal.tuple) (hb : b ≠ PyVal.tuple) :
    ∃ v, pyGt a b = Except.ok v := by
  cases a <;> cases b <;>
    first
    | exact ⟨_, rfl⟩
    | exact absurd rfl ha
    | exact absurd rfl hb

theorem pyLt_ok (a b : PyVal) (ha : a ≠ PyVal.tuple) (hb : b ≠ PyVal.tuple) :
    ∃ v, pyLt a b = Except.ok v := by
  cases a <;> cases b <;>
    first
    | exact ⟨_, rfl⟩
    | exact absurd rfl ha
    | exact absurd rfl hb

theorem evalCondition_not_unsupported (vars : VarMap) (c : List Char) (i : ℕ) (d : Diag)
    (h : evalCondition vars c i = Except.error d) : ∀ s, d.msg ≠ Msg.unsupportedOp s := by
  intro s
  unfold evalCondition at h
  split at h
  · obtain rfl := Except.error.inj h
    simp
  · rename_i l op r heq
    split at h
    · rename_i d2 hl
      obtain rfl := Except.error.inj h
      rcases (evalExpr_error_shape vars l i _ hl).2 with ⟨s2, hs⟩ | ⟨n, hs⟩ | ⟨n, hs⟩ | ⟨s2, hs⟩ | ⟨s2, e2, hs⟩ <;>
        rw [hs] <;> simp
    · rename_i lv hl
      split at h
      · rename_i d2 hr
        obtain rfl := Except.error.inj h
        rcases (evalExpr_error_shape vars r i _ hr).2 with ⟨s2, hs⟩ | ⟨n, hs⟩ | ⟨n, hs⟩ | ⟨s2, hs⟩ | ⟨s2, e2, hs⟩ <;>
          rw [hs] <;> simp
      · rename_i rv hr
        split at h
        · cases h
        · split at h
          · cases h
          · split at h
            · split at h
              · cases h
              · obtain rfl := Except.error.inj h
                simp
            · split at h
              · split at h
                · cases h
                · obtain rfl := Except.error.inj h
                  simp
              · rename_i h1 h2 h3 h4
                rcases condMatch_op c l op r heq with hop | hop | hop | hop
                · exact absurd hop h1
                · exact absurd hop h2
                · exact absurd hop h3
                · exact absurd hop h4

theorem evalCondition_cases (vars : VarMap) (cond : List Char) (i : ℕ)
    (hr : ')' ∉ cond) (hv : varsNoTuple vars) :
    (∃ b, evalCondition vars cond i = Except.ok b) ∨
    evalCondition vars cond i = Except.error ⟨some i, Msg.invalidCondFormat cond⟩ ∨
    (∃ d l op r, condMatch cond = some (l, op, r) ∧
      evalCondition vars cond i = Except.error d ∧
      (evalExpr vars l i = Except.error d ∨ evalExpr vars r i = Except.error d)) := by
  match hcm : condMatch cond with
  | none =>
    right; left
    simp [evalCondition, hcm]
  | some (l, op, r) =>
    obtain ⟨hl, hr2⟩ := condMatch_no_rpar cond l op r hcm hr
    match hel : evalExpr vars l i with
    | Except.error d =>
      right; right
      exact ⟨d, l, op, r, rfl, by simp [evalCondition, hcm, hel], Or.inl hel⟩
    | Except.ok lv =>
      match her : evalExpr vars r i with
      | Except.error d =>
        right; right
        exact ⟨d, l, op, r, rfl, by simp [evalCondition, hcm, hel, her], Or.inr her⟩
      | Except.ok rv =>
        left
        have hlv := evalExpr_noTup vars l i lv hv hl hel
        have hrv := evalExpr_noTup vars r i rv hv hr2 her
        rcases condMatch_op cond l op r hcm with hop | hop | hop | hop
        · exact ⟨pyEq lv rv, by simp [evalCondition, hcm, hel, her, hop]⟩
        · exact ⟨!pyEq lv rv, by simp [evalCondition, hcm, hel, her, hop]⟩
        · obtain ⟨b, hb⟩ := pyGt_ok lv rv hlv hrv
          exact ⟨b, by simp [evalCondition, hcm, hel, her, hop, hb]⟩
        · obtain ⟨b, hb⟩ := pyLt_ok lv rv hlv hrv
          exact ⟨b, by simp [evalCondition, hcm, hel, her, hop, hb]⟩

theorem varsNoTuple_setVar (vs : VarMap) (n : List Char) (tv : Ty × Option PyVal)
    (hv : varsNoTuple vs) (ht : ∀ v, tv.2 = some v → v ≠ PyVal.tuple) :
    varsNoTuple (setVar vs n tv) := by
  intro m t v hl
  by_cases hm : m = n
  · subst hm
    rw [lookupVar_setVar_self] at hl
    have h2 := Option.some.inj hl
    exact ht v (by rw [h2])
  · rw [lookupVar_setVar_ne _ _ _ _ hm] at hl
    exact hv m t v hl

theorem execAssignCore_noTuple (ib : Bool) (st : State) (i : ℕ) (name expr : List Char)
    (st2 : State) (h : execAssignCore ib st i name expr = some st2)
    (hv : varsNoTuple st.vars) : varsNoTuple st2.vars := by
  match hn : lookupVar st.vars name with
  | none =>
    simp only [execAssignCore, hn, Option.some.injEq] at h
    subst h
    exact hv
  | some (ty, w0) =>
    match hev : evalExpr st.vars expr i with
    | Except.error d =>
      simp only [execAssignCore, hn, hev, Option.some.injEq] at h
      subst h
      exact hv
    | Except.ok v =>
      cases ty with
      | integer =>
        match hq : toFloat v with
        | none =>
          simp only [execAssignCore, hn, hev, hq, Option.some.injEq] at h
          subst h
          exact hv
        | some q =>
          simp only [execAssignCore, hn, hev, hq, Option.some.injEq] at h
          subst h
          exact varsNoTuple_setVar st.vars name _ hv
            (fun v2 hv2 => by obtain rfl := Option.some.inj hv2; simp)
      | double =>
        match hq : toFloat v with
        | none =>
          simp only [execAssignCore, hn, hev, hq] at h
          cases h
        | some q =>
          simp only [execAssignCore, hn, hev, hq, Option.some.injEq] at h
          subst h
          exact varsNoTuple_setVar st.vars name _ hv
            (fun v2 hv2 => by obtain rfl := Option.some.inj hv2; simp)

theorem execOutputCore_vars (st : State) (i : ℕ) (payload : List Char) :
    (execOutputCore st i payload).vars = st.vars := by
  unfold execOutputCore
  split
  · rfl
  · split <;> rfl

theorem execIf_noTuple (st : State) (i : ℕ) (cond stmt : List Char) (st2 : State)
    (h : execIf st i cond stmt = some st2) (hv : varsNoTuple st.vars) :
    varsNoTuple st2.vars := by
  match hc : evalCondition st.vars cond i with
  | Except.error d =>
    simp only [execIf, hc, Option.some.injEq] at h
    subst h
    exact hv
  | Except.ok false =>
    simp only [execIf, hc, Option.some.injEq] at h
    subst h
    exact hv
  | Except.ok true =>
    simp only [execIf, hc] at h
    split at h
    · obtain rfl := Option.some.inj h
      exact hv
    · split at h
      · exact execAssignCore_noTuple true st i _ _ st2 h hv
      · split at h
        · obtain rfl := Option.some.inj h
          rw [execOutputCore_vars]
          exact hv
        · obtain rfl := Option.some.inj h
          exact hv

theorem processLine_noTuple (st : State) (i : ℕ) (l : List Char) (st2 : State)
    (h : processLine st i l = some st2) (hv : varsNoTuple st.vars) : varsNoTuple st2.vars := by
  by_cases hemp : pyStrip l = []
  · simp only [processLine, hemp, if_true, Option.some.injEq] at h
    subst h
    exact hv
  · match hd : declMatch (pyStrip l) with
    | some (name, ty) =>
      simp only [processLine, if_neg hemp, hd, Option.some.injEq] at h
      subst h
      split
      · exact hv
      · exact varsNoTuple_setVar st.vars name _ hv (fun v2 hv2 => by cases hv2)
    | none =>
      simp only [processLine, if_neg hemp, hd] at h
      split at h
      · exact execAssignCore_noTuple false st i _ _ st2 h hv
      · split at h
        · obtain rfl := Option.some.inj h
          rw [execOutputCore_vars]
          exact hv
        · split at h
          · exact execIf_noTuple st i _ _ st2 h hv
          · obtain rfl := Option.some.inj h
            exact hv

theorem runLinesAux_noTuple : ∀ (ls : List (List Char)) (i : ℕ) (st st2 : State),
    varsNoTuple st.vars → runLinesAux st i ls = some st2 → varsNoTuple st2.vars := by
  intro ls
  induction ls with
  | nil =>
    intro i st st2 hv h
    simp only [runLinesAux, Option.some.injEq] at h
    subst h
    exact hv
  | cons l ls ih =>
    intro i st st2 hv h
    match hp : processLine st i l with
    | none => rw [runLinesAux, hp] at h; cases h
    | some st1 =>
      rw [runLinesAux, hp] at h
      exact ih (i + 1) st1 st2 (processLine_noTuple st i l st1 hp hv) h

/-- C10.  Every condition text matching `RE_COND` captures one of the four
operators `==`, `!=`, `>`, `<`, so the `Unsupported operator` branch of
`eval_condition` is unreachable; moreover a condition handed to
`eval_condition` by the `if` handler never contains `)` (the `RE_IF` lazy
group stops at the first `)`), and over such text — with a store whose set
values are numbers, an invariant of every reachable state — the evaluator
either yields a boolean, or the `Invalid condition format` diagnostic, or
the diagnostic of evaluating one of its two sides (the comparison itself
cannot fail, since no operand can be a tuple). -/
theorem C10_thm :
    (∀ c l op r, condMatch c = some (l, op, r) →
      op = "==".data ∨ op = "!=".data ∨ op = ">".data ∨ op = "<".data) ∧
    (∀ vars (c : List Char) (i : ℕ) (d : Diag), evalCondition vars c i = Except.error d →
      ∀ s, d.msg ≠ Msg.unsupportedOp s) ∧
    (∀ l cond stmt, ifMatch l = some (cond, stmt) → ')' ∉ cond) ∧
    (∀ vars (cond : List Char) (i : ℕ), ')' ∉ cond → varsNoTuple vars →
      (∃ b, evalCondition vars cond i = Except.ok b) ∨
      evalCondition vars cond i = Except.error ⟨some i, Msg.invalidCondFormat cond⟩ ∨
      (∃ d l op r, condMatch cond = some (l, op, r) ∧
        evalCondition vars cond i = Except.error d ∧
        (evalExpr vars l i = Except.error d ∨ evalExpr vars r i = Except.error d))) ∧
    (∀ src st, runLinesAux initState 1 src = some st → varsNoTuple st.vars) :=
  ⟨condMatch_op, evalCondition_not_unsupported, ifMatch_cond_no_rpar, evalCondition_cases,
    fun src st h => runLinesAux_noTuple src 1 initState st (fun n t v hl => by cases hl) h⟩

/-- C10 witness: the condition `1 < 2` captures the operator `<` (one of
the four), and its evaluation over the empty store yields a boolean. -/
theorem C10_witness :
    ("<".data = "==".data ∨ "<".data = "!=".data ∨ "<".data = ">".data ∨
      "<".data = "<".data) ∧
    ((∃ b, evalCondition [] "1 < 2".data 1 = Except.ok b) ∨
      evalCondition [] "1 < 2".data 1 = Except.error ⟨some 1, Msg.invalidCondFormat "1 < 2".data⟩ ∨
      (∃ d l op r, condMatch "1 < 2".data = some (l, op, r) ∧
        evalCondition [] "1 < 2".data 1 = Except.error d ∧
        (evalExpr [] l 1 = Except.error d ∨ evalExpr [] r 1 = Except.error d))) :=
  ⟨C10_thm.1 "1 < 2".data "1".data "<".data "2".data (by decide),
    C10_thm.2.2.2.1 [] "1 < 2".data 1 (by decide) (fun n t v hl => by cases hl)⟩
